import Mathlib

/-!
Verification development for a small local/remote data-sync layer.

The system keeps two collections (memories and todos) in a per-browser
local store (an IndexedDB database keyed by the item `id` field) and
mirrors them to a remote realtime database when that remote backend is
reachable.  The reconciliation layer treats the remote store as the
source of truth whenever it is reachable.

The embedding below models:
  * the data model (`Memory`, `TodoItem`),
  * the local object stores and the remote id-to-item mappings as
    keyed association lists,
  * the remote adapter (`FB.save` / `FB.get` / `FB.delete` / `FB.listen`)
    with explicit flags for "backend not ready" and "underlying call
    throws", since the adapter catches every failure internally,
  * the reconciliation operations (`getAllMemories`, `saveMemory`,
    `deleteMemory`, `getAllTodos`, `saveTodo`, `deleteTodo`,
    the realtime listeners, and the backup-import handler), and
  * the countdown timer decomposition.

Local-store failures (quota/corruption) are the only failures that
propagate to callers; they are modelled by a `localFails` flag, and every
operation that touches the local store is an `Except` wrapper around a
total "core" function.
-/

namespace LoveStory

/-- Media kind of a memory: `'image' | 'video'`. -/
inductive MediaType where
  | image
  | video
deriving DecidableEq, Repr

/-- Closed category set of a todo item. -/
inductive TodoCategory where
  | travel
  | food
  | activity
  | life
deriving DecidableEq, Repr

/-- A memory record (photo/video with caption and date). -/
structure Memory where
  id : String
  type : MediaType
  url : String
  caption : Option String
  date : String
deriving DecidableEq, Repr

/-- A wishlist/todo record. -/
structure TodoItem where
  id : String
  text : String
  completed : Bool
  notes : Option String
  category : Option TodoCategory
deriving DecidableEq, Repr

/-- JS `String.prototype.startsWith`, modelled on the character list
so that it evaluates inside the kernel. -/
def strStartsWith (s pre : String) : Bool :=
  List.isPrefixOf pre.data s.data

/-! ### Keyed-list primitives

Both the IndexedDB object stores (keyed by the `id` field) and the JS
objects used as remote id-to-item mappings are modelled as lists with a
key projection.  `putBy` is an upsert (replace the entry with the same
key in place, otherwise append, matching both IndexedDB `put` and JS
property assignment on objects with string keys), `delBy` removes the
entry with a given key. -/

/-- Upsert: replace the entry carrying the same key, else append. -/
def putBy (key : α → String) (l : List α) (a : α) : List α :=
  if l.any (fun x => key x == key a) then
    l.map (fun x => if key x == key a then a else x)
  else
    l ++ [a]

/-- Remove every entry carrying key `k` (keys are unique in real stores). -/
def delBy (key : α → String) (l : List α) (k : String) : List α :=
  l.filter (fun x => key x != k)

/-- Upsert a whole batch, left to right. -/
def putAll (key : α → String) (l : List α) (items : List α) : List α :=
  items.foldl (putBy key) l

/-- Delete a whole batch of keys, left to right. -/
def deleteKeys (key : α → String) (l : List α) (ks : List String) : List α :=
  ks.foldl (delBy key) l

theorem mem_delBy {key : α → String} {l : List α} {k : String} {x : α} :
    x ∈ delBy key l k ↔ x ∈ l ∧ key x ≠ k := by
  simp [delBy, List.mem_filter, bne_iff_ne]

theorem mem_deleteKeys {key : α → String} {l : List α} {ks : List String} {x : α} :
    x ∈ deleteKeys key l ks ↔ x ∈ l ∧ key x ∉ ks := by
  induction ks generalizing l with
  | nil => simp [deleteKeys]
  | cons k ks ih =>
      show x ∈ deleteKeys key (delBy key l k) ks ↔ _
      rw [ih, mem_delBy]
      simp only [List.mem_cons]
      tauto

theorem deleteKeys_eq_nil {key : α → String} {l : List α} {ks : List String}
    (h : ∀ x ∈ l, key x ∈ ks) : deleteKeys key l ks = [] := by
  rw [List.eq_nil_iff_forall_not_mem]
  intro x hx
  rcases mem_deleteKeys.mp hx with ⟨hxl, hk⟩
  exact hk (h x hxl)

theorem mem_putBy {key : α → String} {l : List α} {a x : α} :
    x ∈ putBy key l a ↔ x = a ∨ (x ∈ l ∧ key x ≠ key a) := by
  unfold putBy
  split
  · next hany =>
      simp only [List.any_eq_true, beq_iff_eq] at hany
      obtain ⟨y, hy, hya⟩ := hany
      constructor
      · intro hx
        rcases List.mem_map.mp hx with ⟨z, hz, hfz⟩
        by_cases hk : key z = key a
        · left
          simp only [hk, beq_self_eq_true, if_true] at hfz
          exact hfz.symm
        · right
          have hkb : (key z == key a) = false := by simp [hk]
          simp only [hkb, Bool.false_eq_true, if_false] at hfz
          subst hfz
          exact ⟨hz, hk⟩
      · rintro (rfl | ⟨hxl, hxk⟩)
        · exact List.mem_map.mpr ⟨y, hy, by simp [hya]⟩
        · exact List.mem_map.mpr ⟨x, hxl, by simp [hxk]⟩
  · next hany =>
      simp only [List.any_eq_true, beq_iff_eq, not_exists, not_and] at hany
      constructor
      · intro hx
        rcases List.mem_append.mp hx with hxl | hxa
        · exact Or.inr ⟨hxl, hany x hxl⟩
        · exact Or.inl (by simpa using hxa)
      · rintro (rfl | ⟨hxl, _⟩)
        · exact List.mem_append.mpr (Or.inr (by simp))
        · exact List.mem_append.mpr (Or.inl hxl)

theorem self_mem_putBy {key : α → String} {l : List α} {a : α} :
    a ∈ putBy key l a :=
  mem_putBy.mpr (Or.inl rfl)

theorem mem_putAll_sub {key : α → String} {l items : List α} {x : α}
    (hx : x ∈ putAll key l items) :
    x ∈ items ∨ (x ∈ l ∧ key x ∉ items.map key) := by
  induction items generalizing l with
  | nil => simpa [putAll] using hx
  | cons a items ih =>
      have hx' : x ∈ putAll key (putBy key l a) items := hx
      rcases ih hx' with hi | ⟨hmem, hk⟩
      · exact Or.inl (List.mem_cons_of_mem _ hi)
      · rcases mem_putBy.mp hmem with rfl | ⟨hl, hka⟩
        · exact Or.inl (List.mem_cons_self _ _)
        · refine Or.inr ⟨hl, ?_⟩
          simp only [List.map_cons, List.mem_cons]
          rintro (h | h)
          · exact hka h
          · exact hk h

theorem mem_putAll {key : α → String} {l items : List α} {x : α}
    (hnd : (items.map key).Nodup) :
    x ∈ putAll key l items ↔ x ∈ items ∨ (x ∈ l ∧ key x ∉ items.map key) := by
  induction items generalizing l with
  | nil => simp [putAll]
  | cons a items ih =>
      simp only [List.map_cons, List.nodup_cons] at hnd
      show x ∈ putAll key (putBy key l a) items ↔ _
      rw [ih hnd.2, mem_putBy]
      simp only [List.mem_cons, List.map_cons]
      constructor
      · rintro (hi | ⟨(rfl | ⟨hl, hka⟩), hk⟩)
        · exact Or.inl (Or.inr hi)
        · exact Or.inl (Or.inl rfl)
        · exact Or.inr ⟨hl, by simp [hka, hk]⟩
      · rintro ((rfl | hi) | ⟨hl, hk⟩)
        · refine Or.inr ⟨Or.inl rfl, ?_⟩
          intro hmem
          exact hnd.1 hmem
        · exact Or.inl hi
        · simp only [List.mem_cons, not_or] at hk
          exact Or.inr ⟨Or.inr ⟨hl, hk.1⟩, hk.2⟩

theorem putAll_fresh {key : α → String} {l items : List α}
    (hfresh : ∀ x ∈ items, ∀ y ∈ l, key y ≠ key x)
    (hnd : (items.map key).Nodup) :
    putAll key l items = l ++ items := by
  induction items generalizing l with
  | nil => simp [putAll]
  | cons a items ih =>
      simp only [List.map_cons, List.nodup_cons] at hnd
      have hput : putBy key l a = l ++ [a] := by
        have hno : ¬ (l.any fun x => key x == key a) = true := by
          simp only [List.any_eq_true, beq_iff_eq, not_exists, not_and]
          intro y hy
          exact fun h => hfresh a (List.mem_cons_self _ _) y hy h
        unfold putBy
        rw [if_neg hno]
      have hfresh' : ∀ x ∈ items, ∀ y ∈ l ++ [a], key y ≠ key x := by
        intro x hx y hy
        rcases List.mem_append.mp hy with hyl | hya
        · exact hfresh x (List.mem_cons_of_mem _ hx) y hyl
        · have hya' : y = a := by simpa using hya
          subst hya'
          intro hkey
          apply hnd.1
          rw [hkey]
          exact List.mem_map.mpr ⟨x, hx, rfl⟩
      calc putAll key l (a :: items)
          = putAll key (l ++ [a]) items := by
            show putAll key (putBy key l a) items = _
            rw [hput]
        _ = (l ++ [a]) ++ items := ih hfresh' hnd.2
        _ = l ++ a :: items := by simp

theorem putBy_idem {key : α → String} {l : List α} {a : α} :
    putBy key (putBy key l a) a = putBy key l a := by
  unfold putBy
  split
  · next hany =>
      simp only [List.any_eq_true, beq_iff_eq] at hany
      obtain ⟨y, hy, hya⟩ := hany
      rw [if_pos]
      · rw [List.map_map]
        apply List.map_congr_left
        intro x _
        by_cases hk : key x = key a <;> simp [hk]
      · simp only [List.any_eq_true, beq_iff_eq]
        exact ⟨a, List.mem_map.mpr ⟨y, hy, by simp [hya]⟩, rfl⟩
  · next hany =>
      simp only [List.any_eq_true, beq_iff_eq, not_exists, not_and] at hany
      rw [if_pos]
      · rw [List.map_append]
        congr 1
        · have hid : l.map (fun x => if (key x == key a) = true then a else x)
              = l.map id := by
            apply List.map_congr_left
            intro x hx
            have hx' : ¬ key x = key a := fun h => hany x hx h
            simp [hx']
          rw [hid, List.map_id]
        · simp
      · simp only [List.any_eq_true, beq_iff_eq]
        exact ⟨a, List.mem_append.mpr (Or.inr (by simp)), rfl⟩

/-! ### Remote adapter (`firebaseSync` in `src/utils/firebase.ts`)

Every operation first checks `isFirebaseReady()` and wraps the
underlying service call in try/catch, logging and swallowing any
exception.  The environment records whether the backend is ready and
whether the underlying call of each kind would throw; the remote
database content is a path-keyed association list.  Operations return
`Except` so that "never propagates a failure" is expressible: a thrown
and propagated failure would be an `Except.error`. -/

/-- Remote adapter environment: readiness, per-operation throw flags,
and the remote database content keyed by full path. -/
structure FirebaseEnv (V : Type) where
  ready : Bool
  saveThrows : Bool
  getThrows : Bool
  deleteThrows : Bool
  listenThrows : Bool
  store : List (String × V)
deriving DecidableEq, Repr

/-- All paths are namespaced under one shared prefix. -/
def getSharedPath (path : String) : String :=
  "shared/" ++ path

/-- Result of `firebaseSync.listen`: either the no-op unsubscribe
returned when the adapter is not ready or the underlying call throws,
or an active subscription (whose unsubscribe detaches the listener). -/
inductive FBUnsub where
  | noop
  | active (path : String)
deriving DecidableEq, Repr

namespace FB

/-- `firebaseSync.save`: skipped when not ready; a throwing `set` is
caught and logged, leaving the database unchanged. -/
def save (env : FirebaseEnv V) (path : String) (v : V) :
    Except String (FirebaseEnv V) :=
  if !env.ready then .ok env
  else if env.saveThrows then .ok env
  else .ok { env with
    store := LoveStory.putBy (fun p => p.1) env.store (getSharedPath path, v) }

/-- `firebaseSync.get`: `null` when not ready, on a caught error, or
when nothing exists at the path. -/
def get (env : FirebaseEnv V) (path : String) : Except String (Option V) :=
  if !env.ready then .ok none
  else if env.getThrows then .ok none
  else .ok ((env.store.find? (fun p => p.1 == getSharedPath path)).map (fun p => p.2))

/-- `firebaseSync.delete`: skipped when not ready; a throwing `remove`
is caught and logged. -/
def delete (env : FirebaseEnv V) (path : String) :
    Except String (FirebaseEnv V) :=
  if !env.ready then .ok env
  else if env.deleteThrows then .ok env
  else .ok { env with store := LoveStory.delBy (fun p => p.1) env.store (getSharedPath path) }

/-- `firebaseSync.listen`: a no-op unsubscribe when not ready or when
attaching the listener throws; otherwise an active subscription on the
shared path. -/
def listen (env : FirebaseEnv V) (path : String) : Except String FBUnsub :=
  if !env.ready then .ok .noop
  else if env.listenThrows then .ok .noop
  else .ok (.active (getSharedPath path))

end FB

/-! ### Reconciliation-layer state (`src/unnamed/part_002`)

`DBState` packs the local IndexedDB collections, the remote realtime
database content for both collections and the settings entries, the
readiness/failure flags, and the outcome the blob-storage upload would
produce.  The operations below translate the functions of
`src/unnamed/part_002` one by one. -/

/-- A remote collection: a JS object mapping item ids to items,
modelled as a key/value association list in property order. -/
abbrev RMap (α : Type) := List (String × α)

/-- Full system state seen by the reconciliation layer. -/
structure DBState where
  /-- `isFirebaseReady()` -/
  ready : Bool
  /-- the underlying remote `get` call would throw (caught internally) -/
  getThrows : Bool
  /-- the underlying remote `set` call would throw (caught internally) -/
  saveThrows : Bool
  /-- any IndexedDB transaction would reject (quota/corruption) -/
  localFails : Bool
  /-- the URL the blob-storage upload would return; `none` = upload fails -/
  uploadOutcome : Option String
  /-- remote `memories` node content (`none` = nothing at the path) -/
  remoteMems : Option (RMap Memory)
  /-- remote `todos` node content -/
  remoteTodos : Option (RMap TodoItem)
  /-- remote `settings/<key>` entries -/
  remoteSettings : List (String × String)
  /-- local IndexedDB `memories` store (keyed by `id`) -/
  localMems : List Memory
  /-- local IndexedDB `todos` store (keyed by `id`) -/
  localTodos : List TodoItem
  /-- local IndexedDB `settings` store (keyed by `key`) -/
  localSettings : List (String × String)
deriving DecidableEq, Repr

/-- `firebaseSync.get('memories')` as seen by the sync layer: `null`
when not ready or when the underlying call throws. -/
def fbGetMems (s : DBState) : Option (RMap Memory) :=
  if !s.ready then none
  else if s.getThrows then none
  else s.remoteMems

/-- `firebaseSync.get('todos')`. -/
def fbGetTodos (s : DBState) : Option (RMap TodoItem) :=
  if !s.ready then none
  else if s.getThrows then none
  else s.remoteTodos

/-- `firebaseSync.save('memories', obj)`: no-op when not ready or when
the underlying call throws. -/
def fbSaveMems (s : DBState) (obj : RMap Memory) : DBState :=
  if !s.ready then s
  else if s.saveThrows then s
  else { s with remoteMems := some obj }

/-- `firebaseSync.save('todos', obj)`. -/
def fbSaveTodos (s : DBState) (obj : RMap TodoItem) : DBState :=
  if !s.ready then s
  else if s.saveThrows then s
  else { s with remoteTodos := some obj }

/-- `firebaseSync.save('settings/<key>', value)`. -/
def fbSaveSetting (s : DBState) (k v : String) : DBState :=
  if !s.ready then s
  else if s.saveThrows then s
  else { s with remoteSettings := putBy (fun p => p.1) s.remoteSettings (k, v) }

/-- File extension inferred by `firebaseStorage.uploadMedia` from the
data URL's declared MIME type. -/
def uploadExtension (base64Data : String) (type : MediaType) : String :=
  match type with
  | .image =>
      if strStartsWith base64Data "data:image/jpeg" then "jpg"
      else if strStartsWith base64Data "data:image/png" then "png"
      else if strStartsWith base64Data "data:image/gif" then "gif"
      else "jpg"
  | .video =>
      if strStartsWith base64Data "data:video/mp4" then "mp4" else "mp4"

/-- `firebaseStorage.uploadMedia`: `none` when the backend is not ready
or when the upload/getDownloadURL step fails; otherwise the download
URL handed back by the storage service (an environment input here). -/
def uploadMedia (s : DBState) (_base64Data : String) (_memoryId : String)
    (_type : MediaType) : Option String :=
  if !s.ready then none
  else s.uploadOutcome

/-- The `localMap.get` lookup built from `new Map(localMemories.map(m
=> [m.id, m]))`: for duplicate ids the last entry wins. -/
def localLookup (l : List Memory) (i : String) : Option Memory :=
  l.reverse.find? (fun m => m.id == i)

/-- The per-item merge of `getAllMemories`: keep the remote item's
fields but take the local inline-encoded (`data:`) url when one exists,
so offline viewing keeps working. -/
def enhanceMem (l : List Memory) (fm : Memory) : Memory :=
  match localLookup l fm.id with
  | some lm => if strStartsWith lm.url "data:" then { fm with url := lm.url } else fm
  | none => fm

/-- The "Firebase is empty" branch shared by `getAllMemories` and the
memories realtime listener: read the local collection and delete every
one of its items, returning the empty list. -/
def clearMemsCore (s : DBState) : DBState × List Memory :=
  ({ s with localMems :=
      deleteKeys (fun m => m.id) s.localMems (s.localMems.map (fun m => m.id)) }, [])

/-- The non-empty branch of `getAllMemories`: enhance every remote item
with the local inline url when available, upsert the results locally,
then delete the local items absent from the remote collection. -/
def mergeMemsCore (s : DBState) (fb : RMap Memory) : DBState × List Memory :=
  let localMemories := s.localMems
  let firebaseMemories := fb.map (fun p => p.2)
  let enhancedMemories := firebaseMemories.map (enhanceMem localMemories)
  let afterPut := putAll (fun m => m.id) s.localMems enhancedMemories
  let firebaseIds := firebaseMemories.map (fun m => m.id)
  let localOnly := localMemories.filter (fun m => !(firebaseIds.contains m.id))
  let afterDel := deleteKeys (fun m => m.id) afterPut (localOnly.map (fun m => m.id))
  ({ s with localMems := afterDel }, enhancedMemories)

/-- `getAllMemories`, total core (the `localFails` wrapper is below). -/
def getAllMemoriesCore (s : DBState) : DBState × List Memory :=
  if s.ready then
    match fbGetMems s with
    | some fb => if fb.isEmpty then clearMemsCore s else mergeMemsCore s fb
    | none => clearMemsCore s
  else
    (s, s.localMems)

/-- `getAllMemories`: every branch performs at least one IndexedDB
transaction before mutating anything, so a failing local store rejects
the whole call with no state change. -/
def getAllMemories (s : DBState) : Except String (DBState × List Memory) :=
  if s.localFails then .error "idb error" else .ok (getAllMemoriesCore s)

/-- The "Firebase is empty" branch of `getAllTodos`. -/
def clearTodosCore (s : DBState) : DBState × List TodoItem :=
  ({ s with localTodos :=
      deleteKeys (fun t => t.id) s.localTodos (s.localTodos.map (fun t => t.id)) }, [])

/-- The non-empty branch of `getAllTodos`: upsert every remote item
locally (no field-level merge), then delete the local items absent from
the remote collection; note the local collection is re-read after the
upserts. -/
def mergeTodosCore (s : DBState) (fb : RMap TodoItem) : DBState × List TodoItem :=
  let firebaseTodos := fb.map (fun p => p.2)
  let afterPut := putAll (fun t => t.id) s.localTodos firebaseTodos
  let localTodos := afterPut
  let firebaseIds := firebaseTodos.map (fun t => t.id)
  let localOnly := localTodos.filter (fun t => !(firebaseIds.contains t.id))
  let afterDel := deleteKeys (fun t => t.id) afterPut (localOnly.map (fun t => t.id))
  ({ s with localTodos := afterDel }, firebaseTodos)

/-- `getAllTodos`, total core. -/
def getAllTodosCore (s : DBState) : DBState × List TodoItem :=
  if s.ready then
    match fbGetTodos s with
    | some fb => if fb.isEmpty then clearTodosCore s else mergeTodosCore s fb
    | none => clearTodosCore s
  else
    (s, s.localTodos)

/-- `getAllTodos` with the local-failure wrapper. -/
def getAllTodos (s : DBState) : Except String (DBState × List TodoItem) :=
  if s.localFails then .error "idb error" else .ok (getAllTodosCore s)

/-- `saveMemory`, total core: IndexedDB upsert first (keeping the
inline data locally); then, if the backend is ready, upload inline
media to blob storage (skipping the remote write entirely when the
upload fails), and finally read-modify-write the whole remote
collection.  The IndexedDB `put` resolves with the key, `memory.id`. -/
def saveMemoryCore (s : DBState) (memory : Memory) : DBState × String :=
  let s1 := { s with localMems := putBy (fun m => m.id) s.localMems memory }
  let result := memory.id
  if s1.ready then
    let step : Option Memory :=
      if strStartsWith memory.url "data:" then
        (uploadMedia s1 memory.url memory.id memory.type).map
          (fun storageUrl => { memory with url := storageUrl })
      else
        some memory
    match step with
    | none => (s1, result)
    | some memoryForFirebase =>
        let memoriesObj := (fbGetMems s1).getD []
        let memoriesObj2 :=
          putBy (fun p => p.1) memoriesObj (memory.id, memoryForFirebase)
        (fbSaveMems s1 memoriesObj2, result)
  else
    (s1, result)

/-- `saveMemory` with the local-failure wrapper: only an IndexedDB
failure is reported to the caller. -/
def saveMemory (s : DBState) (memory : Memory) :
    Except String (DBState × String) :=
  if s.localFails then .error "idb error" else .ok (saveMemoryCore s memory)

/-- `saveTodo`, total core. -/
def saveTodoCore (s : DBState) (todo : TodoItem) : DBState × String :=
  let s1 := { s with localTodos := putBy (fun t => t.id) s.localTodos todo }
  let result := todo.id
  if s1.ready then
    let todosObj := (fbGetTodos s1).getD []
    let todosObj2 := putBy (fun p => p.1) todosObj (todo.id, todo)
    (fbSaveTodos s1 todosObj2, result)
  else
    (s1, result)

/-- `saveTodo` with the local-failure wrapper. -/
def saveTodo (s : DBState) (todo : TodoItem) :
    Except String (DBState × String) :=
  if s.localFails then .error "idb error" else .ok (saveTodoCore s todo)

/-- `deleteMemory`, total core: IndexedDB delete first, then remove the
id from the fetched remote mapping and write the mapping back. -/
def deleteMemoryCore (s : DBState) (i : String) : DBState :=
  let s1 := { s with localMems := delBy (fun m => m.id) s.localMems i }
  if s1.ready then
    let memoriesObj := (fbGetMems s1).getD []
    let memoriesObj2 := delBy (fun p => p.1) memoriesObj i
    fbSaveMems s1 memoriesObj2
  else
    s1

/-- `deleteMemory` with the local-failure wrapper. -/
def deleteMemory (s : DBState) (i : String) : Except String DBState :=
  if s.localFails then .error "idb error" else .ok (deleteMemoryCore s i)

/-- `deleteTodo`, total core. -/
def deleteTodoCore (s : DBState) (i : String) : DBState :=
  let s1 := { s with localTodos := delBy (fun t => t.id) s.localTodos i }
  if s1.ready then
    let todosObj := (fbGetTodos s1).getD []
    let todosObj2 := delBy (fun p => p.1) todosObj i
    fbSaveTodos s1 todosObj2
  else
    s1

/-- `deleteTodo` with the local-failure wrapper. -/
def deleteTodo (s : DBState) (i : String) : Except String DBState :=
  if s.localFails then .error "idb error" else .ok (deleteTodoCore s i)

/-- `saveSetting`, total core: local put of the `(key, value)` record,
then a remote write under `settings/<key>`. -/
def saveSettingCore (s : DBState) (k v : String) : DBState × String :=
  let s1 := { s with localSettings := putBy (fun p => p.1) s.localSettings (k, v) }
  if s1.ready then (fbSaveSetting s1 k v, k) else (s1, k)

/-- `saveSetting` with the local-failure wrapper. -/
def saveSetting (s : DBState) (k v : String) :
    Except String (DBState × String) :=
  if s.localFails then .error "idb error" else .ok (saveSettingCore s k v)

/-! ### Realtime listeners (`setupRealtimeSync`)

Each snapshot delivered by `firebaseSync.listen` is either a non-null
object (possibly with zero keys) or `null`; the callbacks below return
the updated state together with the list handed to the collection's
change callback. -/

/-- Body of the memories listener, total core.  A non-empty snapshot is
merged like `getAllMemories` (here the stale local items are deleted
before the upserts); an empty or `null` snapshot clears the local
collection and reports the empty list. -/
def memoriesListenerCore (s : DBState) (data : Option (RMap Memory)) :
    DBState × List Memory :=
  match data with
  | some fb =>
      if fb.isEmpty then clearMemsCore s
      else
        let localMemories := s.localMems
        let firebaseMemories := fb.map (fun p => p.2)
        let firebaseIds := firebaseMemories.map (fun m => m.id)
        let enhancedMemories := firebaseMemories.map (enhanceMem localMemories)
        let toDelete := localMemories.filter (fun m => !(firebaseIds.contains m.id))
        let afterDel := deleteKeys (fun m => m.id) s.localMems (toDelete.map (fun m => m.id))
        let afterPut := putAll (fun m => m.id) afterDel enhancedMemories
        ({ s with localMems := afterPut }, enhancedMemories)
  | none => clearMemsCore s

/-- Memories listener with the local-failure wrapper (all its IndexedDB
transactions are awaited, and the first one precedes every mutation and
the callback). -/
def memoriesListener (s : DBState) (data : Option (RMap Memory)) :
    Except String (DBState × List Memory) :=
  if s.localFails then .error "idb error" else .ok (memoriesListenerCore s data)

/-- Body of the todos listener.  Any non-null snapshot (even with zero
keys) reports its values and upserts them locally, the upserts being
fire-and-forget with errors swallowed; a `null` snapshot only reports
the empty list, touching no local data.  This callback never rejects. -/
def todosListener (s : DBState) (data : Option (RMap TodoItem)) :
    DBState × List TodoItem :=
  match data with
  | some fb =>
      let todos := fb.map (fun p => p.2)
      (if s.localFails then s
       else { s with localTodos := putAll (fun t => t.id) s.localTodos todos },
       todos)
  | none => (s, [])

/-! ### Backup import (`handleImportData` in `src/App.tsx`) -/

/-- A parsed backup document.  `none` in `memories`/`todos` models a
missing (or `null`/`undefined`, hence falsy) field; the avatar entries
live under an optional `settings` sub-object. -/
structure BackupDoc where
  memories : Option (List Memory)
  todos : Option (List TodoItem)
  avatarJerry : Option String
  avatarClaire : Option String
deriving DecidableEq, Repr

/-- Outcome of an import attempt as surfaced to the user. -/
inductive ImportOutcome where
  | invalidFormat
  | cancelled
  | failed
  | success
deriving DecidableEq, Repr

/-- The avatar-restore step of the import: the setting is written only
when the optional field is truthy (present and not the empty string). -/
def restoreAvatar (s : DBState) (o : Option String) (k : String) : DBState :=
  match o with
  | some a => if a ≠ "" then (saveSettingCore s k a).1 else s
  | none => s

/-- Confirmed-import pipeline, total core: read both collections
through the sync layer, delete every returned item (locally and, when
reachable, remotely), write every imported item, then restore the
avatar settings that are present.  The `Promise.all` batches are
sequenced in array order. -/
def importConfirmedCore (s : DBState) (ms : List Memory) (ts : List TodoItem)
    (aj ac : Option String) : DBState :=
  let r1 := getAllMemoriesCore s
  let r2 := getAllTodosCore r1.1
  let allMemories := r1.2
  let allTodos := r2.2
  let s3 := allMemories.foldl (fun st m => deleteMemoryCore st m.id) r2.1
  let s4 := allTodos.foldl (fun st t => deleteTodoCore st t.id) s3
  let s5 := ms.foldl (fun st m => (saveMemoryCore st m).1) s4
  let s6 := ts.foldl (fun st t => (saveTodoCore st t).1) s5
  let s7 := restoreAvatar s6 aj "avatar_jerry"
  let s8 := restoreAvatar s7 ac "avatar_claire"
  s8

/-- `handleImportData`: a document missing either required array is
rejected before the confirmation dialog and before any write; without
user confirmation nothing happens; otherwise the destructive pipeline
runs.  A failing local store rejects on the very first read, before any
mutation, and surfaces as an import failure. -/
def handleImportData (s : DBState) (doc : BackupDoc) (confirmed : Bool) :
    DBState × ImportOutcome :=
  match doc.memories, doc.todos with
  | some ms, some ts =>
      if !confirmed then (s, .cancelled)
      else if s.localFails then (s, .failed)
      else (importConfirmedCore s ms ts doc.avatarJerry doc.avatarClaire, .success)
  | _, _ => (s, .invalidFormat)

/-! ### Countdown timer (`calculateTime` in `src/components/Timer.tsx`) -/

/-- The displayed decomposition of the absolute time difference. -/
structure TimeParts where
  days : Nat
  hours : Nat
  minutes : Nat
  seconds : Nat
deriving DecidableEq, Repr

/-- Decompose an absolute millisecond difference exactly as
`calculateTime` does with `Math.floor`. -/
def calcParts (absDiff : Nat) : TimeParts :=
  { days := absDiff / (1000 * 60 * 60 * 24)
    hours := absDiff % (1000 * 60 * 60 * 24) / (1000 * 60 * 60)
    minutes := absDiff % (1000 * 60 * 60) / (1000 * 60)
    seconds := absDiff % (1000 * 60) / 1000 }

/-- `calculateTime`: the sign of `now - startDate` only selects the
heading (`isFuture`); the displayed parts come from the absolute
difference. -/
def calculateTime (nowMs startMs : Int) : Bool × TimeParts :=
  let diff := nowMs - startMs
  (decide (diff < 0), calcParts diff.natAbs)

/-! ### Concrete fixtures used to evaluate the operations -/

/-- A remote adapter environment that never became ready. -/
def envEx : FirebaseEnv Nat :=
  { ready := false, saveThrows := false, getThrows := false
    deleteThrows := false, listenThrows := false, store := [] }

/-- A sample todo item. -/
def exTodo : TodoItem :=
  { id := "t1", text := "go see sakura", completed := false
    notes := none, category := some .travel }

/-- A second sample todo item. -/
def exTodo2 : TodoItem :=
  { id := "t2", text := "picnic", completed := true
    notes := some "bring mats", category := some .activity }

/-- A sample memory whose content reference is inline-encoded. -/
def exMemLocal : Memory :=
  { id := "m1", type := .image, url := "data:image/png;base64,AAAA"
    caption := some "old caption", date := "2024-01-01" }

/-- The remote version of the same memory: storage URL, newer fields. -/
def exMemRemote : Memory :=
  { id := "m1", type := .image, url := "https://storage.example/m1.png"
    caption := some "new caption", date := "2024-02-02" }

/-- A memory with a plain remote URL. -/
def exMemPlain : Memory :=
  { id := "m2", type := .video, url := "https://storage.example/m2.mp4"
    caption := none, date := "2024-03-03" }

/-- A fully reachable state: backend ready, no failures, one remote
memory and one remote todo, a local inline copy of the memory and a
stale local-only todo. -/
def exStateReady : DBState :=
  { ready := true, getThrows := false, saveThrows := false
    localFails := false, uploadOutcome := some "https://storage.example/up.png"
    remoteMems := some [("m1", exMemRemote)]
    remoteTodos := some [("t1", exTodo)]
    remoteSettings := []
    localMems := [exMemLocal]
    localTodos := [exTodo2]
    localSettings := [] }

/-- A reachable state whose remote collections are empty. -/
def exStateEmptyRemote : DBState :=
  { exStateReady with remoteMems := none, remoteTodos := some [] }

/-- A state whose local store rejects every transaction. -/
def exStateLocalFail : DBState :=
  { exStateReady with localFails := true }

/-- A local-only state: the backend never became ready. -/
def exStateUnready : DBState :=
  { exStateReady with ready := false }

/-- A reachable state whose blob-storage upload fails. -/
def exStateUploadFail : DBState :=
  { exStateReady with uploadOutcome := none }

/-- The state used to exhibit the todos-listener behaviour on a `null`
snapshot: one locally stored todo. -/
def exStateC3 : DBState :=
  { ready := true, getThrows := false, saveThrows := false
    localFails := false, uploadOutcome := none
    remoteMems := none, remoteTodos := none, remoteSettings := []
    localMems := [], localTodos := [exTodo], localSettings := [] }

/-- A valid backup document with one memory and two todos. -/
def exBackup : BackupDoc :=
  { memories := some [exMemPlain]
    todos := some [exTodo, exTodo2]
    avatarJerry := none, avatarClaire := none }

/-- A backup document missing the `todos` array. -/
def exBackupNoTodos : BackupDoc :=
  { memories := some [exMemPlain], todos := none
    avatarJerry := none, avatarClaire := none }

/-! ### Shape lemmas: which state fields each operation can touch -/

theorem clearMemsCore_snd (s : DBState) : (clearMemsCore s).2 = [] := rfl

theorem clearMemsCore_fst (s : DBState) :
    (clearMemsCore s).1 =
      { s with localMems :=
          deleteKeys (fun m => m.id) s.localMems (s.localMems.map (fun m => m.id)) } := rfl

theorem clearMemsCore_localMems (s : DBState) :
    (clearMemsCore s).1.localMems = [] := by
  show deleteKeys (fun m => m.id) s.localMems (s.localMems.map (fun m => m.id)) = []
  exact deleteKeys_eq_nil (fun x hx => List.mem_map.mpr ⟨x, hx, rfl⟩)

theorem clearTodosCore_localTodos (s : DBState) :
    (clearTodosCore s).1.localTodos = [] := by
  show deleteKeys (fun t => t.id) s.localTodos (s.localTodos.map (fun t => t.id)) = []
  exact deleteKeys_eq_nil (fun x hx => List.mem_map.mpr ⟨x, hx, rfl⟩)

theorem enhanceMem_id (l : List Memory) (fm : Memory) :
    (enhanceMem l fm).id = fm.id := by
  unfold enhanceMem
  cases localLookup l fm.id with
  | none => rfl
  | some lm => dsimp only; split <;> rfl

theorem enhanceMem_caption (l : List Memory) (fm : Memory) :
    (enhanceMem l fm).caption = fm.caption := by
  unfold enhanceMem
  cases localLookup l fm.id with
  | none => rfl
  | some lm => dsimp only; split <;> rfl

theorem enhanceMem_date (l : List Memory) (fm : Memory) :
    (enhanceMem l fm).date = fm.date := by
  unfold enhanceMem
  cases localLookup l fm.id with
  | none => rfl
  | some lm => dsimp only; split <;> rfl

theorem enhanceMem_type (l : List Memory) (fm : Memory) :
    (enhanceMem l fm).type = fm.type := by
  unfold enhanceMem
  cases localLookup l fm.id with
  | none => rfl
  | some lm => dsimp only; split <;> rfl

theorem getAllMemoriesCore_shape (s : DBState) :
    ∃ lm, (getAllMemoriesCore s).1 = { s with localMems := lm } := by
  unfold getAllMemoriesCore
  split
  · cases fbGetMems s with
    | none => exact ⟨_, rfl⟩
    | some fb =>
        dsimp only
        split
        · exact ⟨_, rfl⟩
        · exact ⟨_, rfl⟩
  · exact ⟨s.localMems, rfl⟩

theorem getAllTodosCore_shape (s : DBState) :
    ∃ lt, (getAllTodosCore s).1 = { s with localTodos := lt } := by
  unfold getAllTodosCore
  split
  · cases fbGetTodos s with
    | none => exact ⟨_, rfl⟩
    | some fb =>
        dsimp only
        split
        · exact ⟨_, rfl⟩
        · exact ⟨_, rfl⟩
  · exact ⟨s.localTodos, rfl⟩

theorem fbSaveMems_shape (s : DBState) (obj : RMap Memory) :
    ∃ rm, fbSaveMems s obj = { s with remoteMems := rm } := by
  unfold fbSaveMems
  split_ifs
  · exact ⟨s.remoteMems, rfl⟩
  · exact ⟨s.remoteMems, rfl⟩
  · exact ⟨some obj, rfl⟩

theorem fbSaveTodos_shape (s : DBState) (obj : RMap TodoItem) :
    ∃ rt, fbSaveTodos s obj = { s with remoteTodos := rt } := by
  unfold fbSaveTodos
  split_ifs
  · exact ⟨s.remoteTodos, rfl⟩
  · exact ⟨s.remoteTodos, rfl⟩
  · exact ⟨some obj, rfl⟩

theorem deleteMemoryCore_shape (s : DBState) (i : String) :
    ∃ lm rm, deleteMemoryCore s i = { s with localMems := lm, remoteMems := rm } := by
  unfold deleteMemoryCore
  dsimp only
  split
  · obtain ⟨rm, hrm⟩ := fbSaveMems_shape
      { s with localMems := delBy (fun m => m.id) s.localMems i }
      (delBy (fun p => p.1) ((fbGetMems { s with localMems := delBy (fun m => m.id) s.localMems i }).getD []) i)
    exact ⟨_, rm, hrm⟩
  · exact ⟨_, s.remoteMems, rfl⟩

theorem deleteTodoCore_shape (s : DBState) (i : String) :
    ∃ lt rt, deleteTodoCore s i = { s with localTodos := lt, remoteTodos := rt } := by
  unfold deleteTodoCore
  dsimp only
  split
  · obtain ⟨rt, hrt⟩ := fbSaveTodos_shape
      { s with localTodos := delBy (fun t => t.id) s.localTodos i }
      (delBy (fun p => p.1) ((fbGetTodos { s with localTodos := delBy (fun t => t.id) s.localTodos i }).getD []) i)
    exact ⟨_, rt, hrt⟩
  · exact ⟨_, s.remoteTodos, rfl⟩

theorem saveMemoryCore_shape (s : DBState) (m : Memory) :
    ∃ lm rm, (saveMemoryCore s m).1 = { s with localMems := lm, remoteMems := rm } ∧
      lm = putBy (fun x => x.id) s.localMems m ∧ (saveMemoryCore s m).2 = m.id := by
  unfold saveMemoryCore
  dsimp only
  split
  · split
    · exact ⟨_, s.remoteMems, rfl, rfl, rfl⟩
    · obtain ⟨rm, hrm⟩ := fbSaveMems_shape _ _
      refine ⟨_, rm, ?_, rfl, rfl⟩
      rw [hrm]
  · exact ⟨_, s.remoteMems, rfl, rfl, rfl⟩

theorem saveTodoCore_shape (s : DBState) (t : TodoItem) :
    ∃ lt rt, (saveTodoCore s t).1 = { s with localTodos := lt, remoteTodos := rt } ∧
      lt = putBy (fun x => x.id) s.localTodos t ∧ (saveTodoCore s t).2 = t.id := by
  unfold saveTodoCore
  dsimp only
  split
  · obtain ⟨rt, hrt⟩ := fbSaveTodos_shape _ _
    refine ⟨_, rt, ?_, rfl, rfl⟩
    rw [hrt]
  · exact ⟨_, s.remoteTodos, rfl, rfl, rfl⟩

theorem saveSettingCore_shape (s : DBState) (k v : String) :
    ∃ ls rs, (saveSettingCore s k v).1 =
      { s with localSettings := ls, remoteSettings := rs } := by
  unfold saveSettingCore fbSaveSetting
  dsimp only
  split_ifs <;> exact ⟨_, _, rfl⟩

/-! ### Step characterizations under explicit flag assumptions -/

theorem deleteMemoryCore_spec (s : DBState) (i : String)
    (hr : s.ready = true) (hg : s.getThrows = false) (hs : s.saveThrows = false) :
    deleteMemoryCore s i =
      { s with localMems := delBy (fun m => m.id) s.localMems i,
               remoteMems := some (delBy (fun p => p.1) (s.remoteMems.getD []) i) } := by
  unfold deleteMemoryCore fbSaveMems fbGetMems
  simp [hr, hg, hs]

theorem deleteMemoryCore_unready (s : DBState) (i : String) (hr : s.ready = false) :
    deleteMemoryCore s i =
      { s with localMems := delBy (fun m => m.id) s.localMems i } := by
  unfold deleteMemoryCore
  simp [hr]

theorem deleteTodoCore_spec (s : DBState) (i : String)
    (hr : s.ready = true) (hg : s.getThrows = false) (hs : s.saveThrows = false) :
    deleteTodoCore s i =
      { s with localTodos := delBy (fun t => t.id) s.localTodos i,
               remoteTodos := some (delBy (fun p => p.1) (s.remoteTodos.getD []) i) } := by
  unfold deleteTodoCore fbSaveTodos fbGetTodos
  simp [hr, hg, hs]

theorem deleteTodoCore_unready (s : DBState) (i : String) (hr : s.ready = false) :
    deleteTodoCore s i =
      { s with localTodos := delBy (fun t => t.id) s.localTodos i } := by
  unfold deleteTodoCore
  simp [hr]

theorem saveMemoryCore_spec (s : DBState) (m : Memory)
    (hr : s.ready = true) (hg : s.getThrows = false) (hs : s.saveThrows = false)
    (hurl : strStartsWith m.url "data:" = false) :
    saveMemoryCore s m =
      ({ s with localMems := putBy (fun x => x.id) s.localMems m,
                remoteMems := some (putBy (fun p => p.1) (s.remoteMems.getD []) (m.id, m)) },
       m.id) := by
  unfold saveMemoryCore fbSaveMems fbGetMems
  simp [hr, hg, hs, hurl]

theorem saveMemoryCore_unready (s : DBState) (m : Memory) (hr : s.ready = false) :
    saveMemoryCore s m =
      ({ s with localMems := putBy (fun x => x.id) s.localMems m }, m.id) := by
  unfold saveMemoryCore
  simp [hr]

theorem saveTodoCore_spec (s : DBState) (t : TodoItem)
    (hr : s.ready = true) (hg : s.getThrows = false) (hs : s.saveThrows = false) :
    saveTodoCore s t =
      ({ s with localTodos := putBy (fun x => x.id) s.localTodos t,
                remoteTodos := some (putBy (fun p => p.1) (s.remoteTodos.getD []) (t.id, t)) },
       t.id) := by
  unfold saveTodoCore fbSaveTodos fbGetTodos
  simp [hr, hg, hs]

theorem saveTodoCore_unready (s : DBState) (t : TodoItem) (hr : s.ready = false) :
    saveTodoCore s t =
      ({ s with localTodos := putBy (fun x => x.id) s.localTodos t }, t.id) := by
  unfold saveTodoCore
  simp [hr]

/-! ### Batch (`Promise.all`) characterizations -/

theorem foldl_deleteMemoryCore (dm : List Memory) (s : DBState)
    (hr : s.ready = true) (hg : s.getThrows = false) (hs : s.saveThrows = false) :
    ∃ rm : Option (RMap Memory),
      dm.foldl (fun st m => deleteMemoryCore st m.id) s =
        { s with localMems := deleteKeys (fun m => m.id) s.localMems (dm.map (fun m => m.id)),
                 remoteMems := rm } ∧
      rm.getD [] = deleteKeys (fun p => p.1) (s.remoteMems.getD []) (dm.map (fun m => m.id)) := by
  induction dm generalizing s with
  | nil => exact ⟨s.remoteMems, rfl, rfl⟩
  | cons m dm ih =>
      rw [List.foldl_cons, deleteMemoryCore_spec s m.id hr hg hs]
      obtain ⟨rm, hfold, hgd⟩ := ih
        { s with localMems := delBy (fun x => x.id) s.localMems m.id,
                 remoteMems := some (delBy (fun p => p.1) (s.remoteMems.getD []) m.id) }
        hr hg hs
      exact ⟨rm, hfold, hgd⟩

theorem foldl_deleteMemoryCore_unready (dm : List Memory) (s : DBState)
    (hr : s.ready = false) :
    dm.foldl (fun st m => deleteMemoryCore st m.id) s =
      { s with localMems :=
          deleteKeys (fun m => m.id) s.localMems (dm.map (fun m => m.id)) } := by
  induction dm generalizing s with
  | nil => rfl
  | cons m dm ih =>
      rw [List.foldl_cons, deleteMemoryCore_unready s m.id hr]
      exact ih { s with localMems := delBy (fun x => x.id) s.localMems m.id } hr

theorem foldl_deleteTodoCore (dt : List TodoItem) (s : DBState)
    (hr : s.ready = true) (hg : s.getThrows = false) (hs : s.saveThrows = false) :
    ∃ rt : Option (RMap TodoItem),
      dt.foldl (fun st t => deleteTodoCore st t.id) s =
        { s with localTodos := deleteKeys (fun t => t.id) s.localTodos (dt.map (fun t => t.id)),
                 remoteTodos := rt } ∧
      rt.getD [] = deleteKeys (fun p => p.1) (s.remoteTodos.getD []) (dt.map (fun t => t.id)) := by
  induction dt generalizing s with
  | nil => exact ⟨s.remoteTodos, rfl, rfl⟩
  | cons t dt ih =>
      rw [List.foldl_cons, deleteTodoCore_spec s t.id hr hg hs]
      obtain ⟨rt, hfold, hgd⟩ := ih
        { s with localTodos := delBy (fun x => x.id) s.localTodos t.id,
                 remoteTodos := some (delBy (fun p => p.1) (s.remoteTodos.getD []) t.id) }
        hr hg hs
      exact ⟨rt, hfold, hgd⟩

theorem foldl_deleteTodoCore_unready (dt : List TodoItem) (s : DBState)
    (hr : s.ready = false) :
    dt.foldl (fun st t => deleteTodoCore st t.id) s =
      { s with localTodos :=
          deleteKeys (fun t => t.id) s.localTodos (dt.map (fun t => t.id)) } := by
  induction dt generalizing s with
  | nil => rfl
  | cons t dt ih =>
      rw [List.foldl_cons, deleteTodoCore_unready s t.id hr]
      exact ih { s with localTodos := delBy (fun x => x.id) s.localTodos t.id } hr

theorem foldl_saveMemoryCore (ms : List Memory) (s : DBState)
    (hr : s.ready = true) (hg : s.getThrows = false) (hs : s.saveThrows = false)
    (hurl : ∀ m ∈ ms, strStartsWith m.url "data:" = false) :
    ∃ rm : Option (RMap Memory),
      ms.foldl (fun st m => (saveMemoryCore st m).1) s =
        { s with localMems := putAll (fun m => m.id) s.localMems ms,
                 remoteMems := rm } ∧
      rm.getD [] = putAll (fun p => p.1) (s.remoteMems.getD [])
        (ms.map (fun m => (m.id, m))) := by
  induction ms generalizing s with
  | nil => exact ⟨s.remoteMems, rfl, rfl⟩
  | cons m ms ih =>
      rw [List.foldl_cons, saveMemoryCore_spec s m hr hg hs
        (hurl m (List.mem_cons_self _ _))]
      obtain ⟨rm, hfold, hgd⟩ := ih
        { s with localMems := putBy (fun x => x.id) s.localMems m,
                 remoteMems := some (putBy (fun p => p.1) (s.remoteMems.getD []) (m.id, m)) }
        hr hg hs (fun x hx => hurl x (List.mem_cons_of_mem _ hx))
      exact ⟨rm, hfold, hgd⟩

theorem foldl_saveMemoryCore_unready (ms : List Memory) (s : DBState)
    (hr : s.ready = false) :
    ms.foldl (fun st m => (saveMemoryCore st m).1) s =
      { s with localMems := putAll (fun m => m.id) s.localMems ms } := by
  induction ms generalizing s with
  | nil => rfl
  | cons m ms ih =>
      rw [List.foldl_cons, saveMemoryCore_unready s m hr]
      exact ih { s with localMems := putBy (fun x => x.id) s.localMems m } hr

theorem foldl_saveTodoCore (ts : List TodoItem) (s : DBState)
    (hr : s.ready = true) (hg : s.getThrows = false) (hs : s.saveThrows = false) :
    ∃ rt : Option (RMap TodoItem),
      ts.foldl (fun st t => (saveTodoCore st t).1) s =
        { s with localTodos := putAll (fun t => t.id) s.localTodos ts,
                 remoteTodos := rt } ∧
      rt.getD [] = putAll (fun p => p.1) (s.remoteTodos.getD [])
        (ts.map (fun t => (t.id, t))) := by
  induction ts generalizing s with
  | nil => exact ⟨s.remoteTodos, rfl, rfl⟩
  | cons t ts ih =>
      rw [List.foldl_cons, saveTodoCore_spec s t hr hg hs]
      obtain ⟨rt, hfold, hgd⟩ := ih
        { s with localTodos := putBy (fun x => x.id) s.localTodos t,
                 remoteTodos := some (putBy (fun p => p.1) (s.remoteTodos.getD []) (t.id, t)) }
        hr hg hs
      exact ⟨rt, hfold, hgd⟩

theorem foldl_saveTodoCore_unready (ts : List TodoItem) (s : DBState)
    (hr : s.ready = false) :
    ts.foldl (fun st t => (saveTodoCore st t).1) s =
      { s with localTodos := putAll (fun t => t.id) s.localTodos ts } := by
  induction ts generalizing s with
  | nil => rfl
  | cons t ts ih =>
      rw [List.foldl_cons, saveTodoCore_unready s t hr]
      exact ih { s with localTodos := putBy (fun x => x.id) s.localTodos t } hr

/-! ### Claim theorems -/

/-- C10: for every start date, the timer's displayed decomposition of
the absolute difference between now and the start date satisfies
`0 ≤ hours < 24`, `0 ≤ minutes < 60`, `0 ≤ seconds < 60`, and
`days*86400000 + hours*3600000 + minutes*60000 + seconds*1000 ≤ |now − startDate|
 < days*86400000 + hours*3600000 + minutes*60000 + (seconds+1)*1000`;
the same decomposition is shown whether the start date is in the past
or the future (mirroring the start date around now leaves the parts
unchanged), with only the heading differing. -/
theorem C10_timer_decomposition (nowMs startMs : Int) :
    (calculateTime nowMs startMs).2.hours < 24 ∧
    (calculateTime nowMs startMs).2.minutes < 60 ∧
    (calculateTime nowMs startMs).2.seconds < 60 ∧
    (calculateTime nowMs startMs).2.days * 86400000 +
      (calculateTime nowMs startMs).2.hours * 3600000 +
      (calculateTime nowMs startMs).2.minutes * 60000 +
      (calculateTime nowMs startMs).2.seconds * 1000 ≤ (nowMs - startMs).natAbs ∧
    (nowMs - startMs).natAbs <
      (calculateTime nowMs startMs).2.days * 86400000 +
      (calculateTime nowMs startMs).2.hours * 3600000 +
      (calculateTime nowMs startMs).2.minutes * 60000 +
      ((calculateTime nowMs startMs).2.seconds + 1) * 1000 ∧
    (calculateTime nowMs (2 * nowMs - startMs)).2 = (calculateTime nowMs startMs).2 := by
  have hm : (nowMs - (2 * nowMs - startMs)).natAbs = (nowMs - startMs).natAbs := by
    have h : nowMs - (2 * nowMs - startMs) = -(nowMs - startMs) := by ring
    rw [h, Int.natAbs_neg]
  have hp : (calculateTime nowMs startMs).2 = calcParts (nowMs - startMs).natAbs := rfl
  have hp2 : (calculateTime nowMs (2 * nowMs - startMs)).2 =
      calcParts (nowMs - (2 * nowMs - startMs)).natAbs := rfl
  rw [hp, hp2, hm]
  generalize (nowMs - startMs).natAbs = a
  refine ⟨?_, ?_, ?_, ?_, ?_, rfl⟩ <;>
    (unfold calcParts; dsimp only; omega)

/-- C6: for every path and value, each remote adapter operation (save,
get, delete, listen) never propagates a failure to its caller: when the
adapter is not ready or the underlying call throws, save and delete
resolve as no-ops, get returns none, and listen returns a no-op
unsubscribe function. -/
theorem C6_remote_adapter_total {V : Type} (env : FirebaseEnv V) (path : String) (v : V) :
    (∃ e, FB.save env path v = .ok e) ∧
    (∃ o, FB.get env path = .ok o) ∧
    (∃ e, FB.delete env path = .ok e) ∧
    (∃ u, FB.listen env path = .ok u) ∧
    ((env.ready = false ∨ env.saveThrows = true) → FB.save env path v = .ok env) ∧
    ((env.ready = false ∨ env.getThrows = true) → FB.get env path = .ok none) ∧
    ((env.ready = false ∨ env.deleteThrows = true) → FB.delete env path = .ok env) ∧
    ((env.ready = false ∨ env.listenThrows = true) → FB.listen env path = .ok .noop) := by
  unfold FB.save FB.get FB.delete FB.listen
  refine ⟨?_, ?_, ?_, ?_, ?_, ?_, ?_, ?_⟩
  · split_ifs <;> exact ⟨_, rfl⟩
  · split_ifs <;> exact ⟨_, rfl⟩
  · split_ifs <;> exact ⟨_, rfl⟩
  · split_ifs <;> exact ⟨_, rfl⟩
  · rintro (h | h) <;> simp [h]
  · rintro (h | h) <;> simp [h]
  · rintro (h | h) <;> simp [h]
  · rintro (h | h) <;> simp [h]

/-- Witness for C6: the adapter evaluated at a concrete never-ready
environment resolves every operation successfully with the degraded
results. -/
theorem C6_remote_adapter_total_witness :
    FB.save envEx "memories" 7 = .ok envEx ∧
    FB.get envEx "memories" = .ok none ∧
    FB.delete envEx "memories" = .ok envEx ∧
    FB.listen envEx "memories" = .ok .noop := by
  have h := C6_remote_adapter_total envEx "memories" 7
  exact ⟨h.2.2.2.2.1 (Or.inl rfl), h.2.2.2.2.2.1 (Or.inl rfl),
    h.2.2.2.2.2.2.1 (Or.inl rfl), h.2.2.2.2.2.2.2 (Or.inl rfl)⟩

/-- C2: for every local collection state, Read-all with the remote
reachable and the remote collection empty (`null` or zero keys)
returns an empty list and deletes every item from the Local Store
collection, for memories and todos alike. -/
theorem C2_readall_empty_remote_clears (s : DBState)
    (hr : s.ready = true) (hg : s.getThrows = false) (hlf : s.localFails = false)
    (hm : s.remoteMems = none ∨ s.remoteMems = some [])
    (ht : s.remoteTodos = none ∨ s.remoteTodos = some []) :
    getAllMemories s = .ok ((clearMemsCore s).1, []) ∧
    (clearMemsCore s).1.localMems = [] ∧
    getAllTodos s = .ok ((clearTodosCore s).1, []) ∧
    (clearTodosCore s).1.localTodos = [] := by
  have h1 : getAllMemoriesCore s = clearMemsCore s := by
    unfold getAllMemoriesCore fbGetMems
    rcases hm with h | h <;> simp [hr, hg, h]
  have h2 : getAllTodosCore s = clearTodosCore s := by
    unfold getAllTodosCore fbGetTodos
    rcases ht with h | h <;> simp [hr, hg, h]
  refine ⟨?_, clearMemsCore_localMems s, ?_, clearTodosCore_localTodos s⟩
  · unfold getAllMemories
    rw [if_neg (by simp [hlf]), h1]
    rfl
  · unfold getAllTodos
    rw [if_neg (by simp [hlf]), h2]
    rfl

/-- Witness for C2: a concrete reachable state with an empty remote and
a non-empty local store is fully cleared. -/
theorem C2_readall_empty_remote_clears_witness :
    getAllMemories exStateEmptyRemote = .ok ((clearMemsCore exStateEmptyRemote).1, []) ∧
    (clearMemsCore exStateEmptyRemote).1.localMems = [] ∧
    getAllTodos exStateEmptyRemote = .ok ((clearTodosCore exStateEmptyRemote).1, []) ∧
    (clearTodosCore exStateEmptyRemote).1.localTodos = [] :=
  C2_readall_empty_remote_clears exStateEmptyRemote rfl rfl rfl (Or.inl rfl) (Or.inr rfl)

/-- `saveTodo`'s core is idempotent on the state. -/
theorem saveTodoCore_idem (s : DBState) (t : TodoItem) :
    saveTodoCore ((saveTodoCore s t).1) t = saveTodoCore s t := by
  cases hr : s.ready <;> cases hs : s.saveThrows <;> cases hg : s.getThrows <;>
    simp [saveTodoCore, fbGetTodos, fbSaveTodos, hr, hs, hg, putBy_idem]

/-- `saveMemory`'s core is idempotent on the state. -/
theorem saveMemoryCore_idem (s : DBState) (m : Memory) :
    saveMemoryCore ((saveMemoryCore s m).1) m = saveMemoryCore s m := by
  cases hr : s.ready <;> cases hs : s.saveThrows <;> cases hg : s.getThrows <;>
    cases hurl : strStartsWith m.url "data:" <;> cases hu : s.uploadOutcome <;>
      simp [saveMemoryCore, fbGetMems, fbSaveMems, uploadMedia,
        hr, hs, hg, hurl, hu, putBy_idem]

/-- C4: for every item, Save upserts the item into the Local Store
before any remote operation, and the value Save resolves with is the
local write's result (the item key) regardless of whether the remote
sync step succeeded, failed, or was skipped; only a local-store failure
is reported to the caller (and then nothing, local or remote, is
modified), while the remote step is still sequenced before the function
resolves. -/
theorem C4_save_local_first (s : DBState) (m : Memory) (t : TodoItem) :
    (s.localFails = true →
      saveMemory s m = .error "idb error" ∧ saveTodo s t = .error "idb error") ∧
    (s.localFails = false →
      saveMemory s m = .ok ((saveMemoryCore s m).1, m.id) ∧
      (saveMemoryCore s m).1.localMems = putBy (fun x => x.id) s.localMems m ∧
      saveTodo s t = .ok ((saveTodoCore s t).1, t.id) ∧
      (saveTodoCore s t).1.localTodos = putBy (fun x => x.id) s.localTodos t) := by
  constructor
  · intro h
    exact ⟨by unfold saveMemory; rw [if_pos h],
      by unfold saveTodo; rw [if_pos h]⟩
  · intro h
    obtain ⟨lm, rm, hshape, hlm, hsnd⟩ := saveMemoryCore_shape s m
    obtain ⟨lt, rt, tshape, hlt, tsnd⟩ := saveTodoCore_shape s t
    refine ⟨?_, ?_, ?_, ?_⟩
    · unfold saveMemory
      rw [if_neg (by simp [h]), ← hsnd]
    · rw [hshape]
      exact hlm
    · unfold saveTodo
      rw [if_neg (by simp [h]), ← tsnd]
    · rw [tshape]
      exact hlt

/-- Witness for C4 at a failing local store and at a fully reachable
state. -/
theorem C4_save_local_first_witness :
    (saveMemory exStateLocalFail exMemPlain = .error "idb error" ∧
     saveTodo exStateLocalFail exTodo = .error "idb error") ∧
    (saveMemory exStateReady exMemPlain =
        .ok ((saveMemoryCore exStateReady exMemPlain).1, exMemPlain.id) ∧
     (saveMemoryCore exStateReady exMemPlain).1.localMems =
        putBy (fun x => x.id) exStateReady.localMems exMemPlain ∧
     saveTodo exStateReady exTodo =
        .ok ((saveTodoCore exStateReady exTodo).1, exTodo.id) ∧
     (saveTodoCore exStateReady exTodo).1.localTodos =
        putBy (fun x => x.id) exStateReady.localTodos exTodo) :=
  ⟨(C4_save_local_first exStateLocalFail exMemPlain exTodo).1 rfl,
   (C4_save_local_first exStateReady exMemPlain exTodo).2 rfl⟩

/-- C5: for every Memory item whose content reference is
inline-encoded, Save attempts the blob upload before any remote write;
if the upload returns none, the remote write for that item is skipped
entirely (the remote collection is untouched) while the local save
result is still returned; if the upload succeeds, the returned URL
replaces the content reference only in the copy written to the remote
store, and the Local Store copy keeps the inline-encoded data. -/
theorem C5_save_memory_blob_offload (s : DBState) (m : Memory)
    (hlf : s.localFails = false) (hr : s.ready = true)
    (hurl : strStartsWith m.url "data:" = true) :
    (s.uploadOutcome = none →
      saveMemory s m = .ok ((saveMemoryCore s m).1, m.id) ∧
      (saveMemoryCore s m).1.remoteMems = s.remoteMems ∧
      (saveMemoryCore s m).1.localMems = putBy (fun x => x.id) s.localMems m) ∧
    (∀ u, s.uploadOutcome = some u → s.saveThrows = false →
      saveMemory s m = .ok ((saveMemoryCore s m).1, m.id) ∧
      (m.id, { m with url := u }) ∈ (saveMemoryCore s m).1.remoteMems.getD [] ∧
      m ∈ (saveMemoryCore s m).1.localMems) := by
  constructor
  · intro hup
    have hcore : saveMemoryCore s m =
        ({ s with localMems := putBy (fun x => x.id) s.localMems m }, m.id) := by
      unfold saveMemoryCore uploadMedia
      simp [hr, hurl, hup]
    refine ⟨?_, ?_, ?_⟩
    · unfold saveMemory
      rw [if_neg (by simp [hlf]), hcore]
    · rw [hcore]
    · rw [hcore]
  · intro u hup hst
    have hcore : saveMemoryCore s m =
        ({ s with localMems := putBy (fun x => x.id) s.localMems m,
                  remoteMems := some (putBy (fun p => p.1)
                    ((fbGetMems { s with
                        localMems := putBy (fun x => x.id) s.localMems m }).getD [])
                    (m.id, { m with url := u })) }, m.id) := by
      unfold saveMemoryCore uploadMedia fbSaveMems
      simp [hr, hurl, hup, hst]
    refine ⟨?_, ?_, ?_⟩
    · unfold saveMemory
      rw [if_neg (by simp [hlf]), hcore]
    · rw [hcore]
      exact self_mem_putBy
    · rw [hcore]
      exact self_mem_putBy

/-- Witness for C5: a failing upload leaves the remote collection
untouched, and a successful upload writes the substituted URL remotely
while the local store keeps the inline data. -/
theorem C5_save_memory_blob_offload_witness :
    (saveMemory exStateUploadFail exMemLocal =
        .ok ((saveMemoryCore exStateUploadFail exMemLocal).1, exMemLocal.id) ∧
     (saveMemoryCore exStateUploadFail exMemLocal).1.remoteMems =
        exStateUploadFail.remoteMems ∧
     (saveMemoryCore exStateUploadFail exMemLocal).1.localMems =
        putBy (fun x => x.id) exStateUploadFail.localMems exMemLocal) ∧
    (saveMemory exStateReady exMemLocal =
        .ok ((saveMemoryCore exStateReady exMemLocal).1, exMemLocal.id) ∧
     (exMemLocal.id, { exMemLocal with url := "https://storage.example/up.png" }) ∈
        (saveMemoryCore exStateReady exMemLocal).1.remoteMems.getD [] ∧
     exMemLocal ∈ (saveMemoryCore exStateReady exMemLocal).1.localMems) :=
  ⟨(C5_save_memory_blob_offload exStateUploadFail exMemLocal rfl rfl (by decide)).1 rfl,
   (C5_save_memory_blob_offload exStateReady exMemLocal rfl rfl (by decide)).2
      "https://storage.example/up.png" rfl rfl⟩

/-- C8: for every valid item, calling Save twice in sequence with an
identical item yields the same Local Store and remote collection state
as calling it once: no duplicate entry is created (items are keyed by
id) and field values are unchanged. -/
theorem C8_save_idempotent (s : DBState) (t : TodoItem) (m : Memory)
    (hlf : s.localFails = false) :
    saveTodo s t = .ok (saveTodoCore s t) ∧
    saveTodo ((saveTodoCore s t).1) t = .ok (saveTodoCore s t) ∧
    saveMemory s m = .ok (saveMemoryCore s m) ∧
    saveMemory ((saveMemoryCore s m).1) m = .ok (saveMemoryCore s m) := by
  obtain ⟨lt, rt, tshape, _, _⟩ := saveTodoCore_shape s t
  obtain ⟨lm, rm, mshape, _, _⟩ := saveMemoryCore_shape s m
  have hlf1 : (saveTodoCore s t).1.localFails = false := by rw [tshape]; exact hlf
  have hlf2 : (saveMemoryCore s m).1.localFails = false := by rw [mshape]; exact hlf
  refine ⟨?_, ?_, ?_, ?_⟩
  · unfold saveTodo
    rw [if_neg (by simp [hlf])]
  · unfold saveTodo
    rw [if_neg (by simp [hlf1]), saveTodoCore_idem]
  · unfold saveMemory
    rw [if_neg (by simp [hlf])]
  · unfold saveMemory
    rw [if_neg (by simp [hlf2]), saveMemoryCore_idem]

/-- Witness for C8 at a fully reachable concrete state. -/
theorem C8_save_idempotent_witness :
    saveTodo exStateReady exTodo = .ok (saveTodoCore exStateReady exTodo) ∧
    saveTodo ((saveTodoCore exStateReady exTodo).1) exTodo =
      .ok (saveTodoCore exStateReady exTodo) ∧
    saveMemory exStateReady exMemPlain = .ok (saveMemoryCore exStateReady exMemPlain) ∧
    saveMemory ((saveMemoryCore exStateReady exMemPlain).1) exMemPlain =
      .ok (saveMemoryCore exStateReady exMemPlain) :=
  C8_save_idempotent exStateReady exTodo exMemPlain rfl

/-- `getAllMemories` core under a reachable backend with a successful
remote read. -/
theorem getAllMemoriesCore_ready (s : DBState) (fb : RMap Memory)
    (hr : s.ready = true) (hg : s.getThrows = false) (hm : s.remoteMems = some fb) :
    getAllMemoriesCore s = if fb.isEmpty then clearMemsCore s else mergeMemsCore s fb := by
  unfold getAllMemoriesCore fbGetMems
  simp [hr, hg, hm]

/-- `getAllMemories` core when nothing exists at the remote path. -/
theorem getAllMemoriesCore_noneRemote (s : DBState)
    (hr : s.ready = true) (hg : s.getThrows = false) (hm : s.remoteMems = none) :
    getAllMemoriesCore s = clearMemsCore s := by
  unfold getAllMemoriesCore fbGetMems
  simp [hr, hg, hm]

/-- `getAllMemories` core when the backend never became ready. -/
theorem getAllMemoriesCore_unready (s : DBState) (hr : s.ready = false) :
    getAllMemoriesCore s = (s, s.localMems) := by
  unfold getAllMemoriesCore
  simp [hr]

/-- `getAllTodos` core under a reachable backend with a successful
remote read. -/
theorem getAllTodosCore_ready (s : DBState) (fb : RMap TodoItem)
    (hr : s.ready = true) (hg : s.getThrows = false) (ht : s.remoteTodos = some fb) :
    getAllTodosCore s = if fb.isEmpty then clearTodosCore s else mergeTodosCore s fb := by
  unfold getAllTodosCore fbGetTodos
  simp [hr, hg, ht]

/-- `getAllTodos` core when nothing exists at the remote path. -/
theorem getAllTodosCore_noneRemote (s : DBState)
    (hr : s.ready = true) (hg : s.getThrows = false) (ht : s.remoteTodos = none) :
    getAllTodosCore s = clearTodosCore s := by
  unfold getAllTodosCore fbGetTodos
  simp [hr, hg, ht]

/-- `getAllTodos` core when the backend never became ready. -/
theorem getAllTodosCore_unready (s : DBState) (hr : s.ready = false) :
    getAllTodosCore s = (s, s.localTodos) := by
  unfold getAllTodosCore
  simp [hr]

/-- C1: for Read-all on a reachable, non-empty remote collection: for
every remote Memory item, if a Local Store item with the same id exists
and its content reference (url) is inline-encoded (starts with
`data:`), the returned item has the local inline-encoded url but the
remote item's caption and date (and id and kind); for every TodoItem no
field-level merge occurs and the remote item fully replaces the local
one (the returned list is exactly the remote values and the local
collection afterwards holds exactly the remote items). -/
theorem C1_readall_merge (s : DBState) (fbm : RMap Memory) (fbt : RMap TodoItem)
    (hr : s.ready = true) (hg : s.getThrows = false) (hlf : s.localFails = false)
    (hm : s.remoteMems = some fbm) (hmne : fbm ≠ [])
    (ht : s.remoteTodos = some fbt) (htne : fbt ≠ [])
    (hndt : ((fbt.map (fun p => p.2)).map (fun t => t.id)).Nodup) :
    getAllMemories s = .ok (mergeMemsCore s fbm) ∧
    (mergeMemsCore s fbm).2 = (fbm.map (fun p => p.2)).map (enhanceMem s.localMems) ∧
    (∀ fm : Memory,
      (enhanceMem s.localMems fm).id = fm.id ∧
      (enhanceMem s.localMems fm).caption = fm.caption ∧
      (enhanceMem s.localMems fm).date = fm.date ∧
      (enhanceMem s.localMems fm).type = fm.type) ∧
    (∀ fm lm : Memory, localLookup s.localMems fm.id = some lm →
      strStartsWith lm.url "data:" = true →
      enhanceMem s.localMems fm = { fm with url := lm.url }) ∧
    (∀ fm lm : Memory, localLookup s.localMems fm.id = some lm →
      strStartsWith lm.url "data:" = false →
      enhanceMem s.localMems fm = fm) ∧
    (∀ fm : Memory, localLookup s.localMems fm.id = none →
      enhanceMem s.localMems fm = fm) ∧
    getAllTodos s = .ok (mergeTodosCore s fbt) ∧
    (mergeTodosCore s fbt).2 = fbt.map (fun p => p.2) ∧
    (∀ x : TodoItem, x ∈ (mergeTodosCore s fbt).1.localTodos ↔
      x ∈ fbt.map (fun p => p.2)) := by
  have hmne' : fbm.isEmpty = false := by
    cases fbm with
    | nil => exact absurd rfl hmne
    | cons a l => rfl
  have htne' : fbt.isEmpty = false := by
    cases fbt with
    | nil => exact absurd rfl htne
    | cons a l => rfl
  refine ⟨?_, rfl, ?_, ?_, ?_, ?_, ?_, rfl, ?_⟩
  · unfold getAllMemories
    rw [if_neg (by simp [hlf]), getAllMemoriesCore_ready s fbm hr hg hm, if_neg (by simp [hmne'])]
  · intro fm
    exact ⟨enhanceMem_id _ _, enhanceMem_caption _ _, enhanceMem_date _ _, enhanceMem_type _ _⟩
  · intro fm lm hlook hdata
    unfold enhanceMem
    rw [hlook]
    simp [hdata]
  · intro fm lm hlook hdata
    unfold enhanceMem
    rw [hlook]
    simp [hdata]
  · intro fm hlook
    unfold enhanceMem
    rw [hlook]
  · unfold getAllTodos
    rw [if_neg (by simp [hlf]), getAllTodosCore_ready s fbt hr hg ht, if_neg (by simp [htne'])]
  · intro x
    have hloc : (mergeTodosCore s fbt).1.localTodos =
        deleteKeys (fun t => t.id)
          (putAll (fun t => t.id) s.localTodos (fbt.map (fun p => p.2)))
          (((putAll (fun t => t.id) s.localTodos (fbt.map (fun p => p.2))).filter
            (fun t => !(((fbt.map (fun p => p.2)).map (fun t => t.id)).contains t.id))).map
            (fun t => t.id)) := rfl
    rw [hloc, mem_deleteKeys]
    constructor
    · rintro ⟨hput, hdel⟩
      by_cases hid : x.id ∈ (fbt.map (fun p => p.2)).map (fun t => t.id)
      · rcases (mem_putAll hndt).mp hput with hv | ⟨_, hnin⟩
        · exact hv
        · exact absurd hid hnin
      · exfalso
        apply hdel
        refine List.mem_map.mpr ⟨x, List.mem_filter.mpr ⟨hput, ?_⟩, rfl⟩
        simpa using hid
    · intro hv
      refine ⟨(mem_putAll hndt).mpr (Or.inl hv), ?_⟩
      intro hmem
      rcases List.mem_map.mp hmem with ⟨y, hy, hyid⟩
      have hyn : y.id ∉ (fbt.map (fun p => p.2)).map (fun t => t.id) := by
        simpa using (List.mem_filter.mp hy).2
      apply hyn
      rw [hyid]
      exact List.mem_map.mpr ⟨x, hv, rfl⟩

/-- Witness for C1 at a concrete reachable state: the merged memory
keeps the local inline url with the remote caption and date, and the
remote todo fully replaces the local collection. -/
theorem C1_readall_merge_witness :
    getAllMemories exStateReady = .ok (mergeMemsCore exStateReady [("m1", exMemRemote)]) ∧
    enhanceMem exStateReady.localMems exMemRemote =
      { exMemRemote with url := exMemLocal.url } ∧
    (exTodo ∈ (mergeTodosCore exStateReady [("t1", exTodo)]).1.localTodos ↔
      exTodo ∈ ([("t1", exTodo)] : RMap TodoItem).map (fun p => p.2)) := by
  have h := C1_readall_merge exStateReady [("m1", exMemRemote)] [("t1", exTodo)]
    rfl rfl rfl rfl (by decide) rfl (by decide) (by decide)
  refine ⟨h.1, ?_, h.2.2.2.2.2.2.2.2 exTodo⟩
  have h4 := h.2.2.2.1 exMemRemote exMemLocal (by decide) (by decide)
  simpa using h4

/-- C7: for every id on which Delete has completed, a subsequent
Read-all of that collection returns a list that does not contain any
item with that id, both when the remote store is reachable (with the
remote calls succeeding and the remote maps keyed by the item ids) and
when it is not, assuming no interleaved writes from other devices. -/
theorem C7_delete_then_readall (s : DBState) (i : String)
    (hlf : s.localFails = false)
    (h : (s.ready = true ∧ s.getThrows = false ∧ s.saveThrows = false ∧
          (∀ p ∈ s.remoteMems.getD [], p.1 = p.2.id) ∧
          (∀ p ∈ s.remoteTodos.getD [], p.1 = p.2.id)) ∨ s.ready = false) :
    deleteMemory s i = .ok (deleteMemoryCore s i) ∧
    getAllMemories (deleteMemoryCore s i) =
      .ok (getAllMemoriesCore (deleteMemoryCore s i)) ∧
    (∀ m ∈ (getAllMemoriesCore (deleteMemoryCore s i)).2, m.id ≠ i) ∧
    deleteTodo s i = .ok (deleteTodoCore s i) ∧
    getAllTodos (deleteTodoCore s i) = .ok (getAllTodosCore (deleteTodoCore s i)) ∧
    (∀ t ∈ (getAllTodosCore (deleteTodoCore s i)).2, t.id ≠ i) := by
  obtain ⟨lmm, rmm, hmsh⟩ := deleteMemoryCore_shape s i
  obtain ⟨ltt, rtt, htsh⟩ := deleteTodoCore_shape s i
  have hlfm : (deleteMemoryCore s i).localFails = false := by rw [hmsh]; exact hlf
  have hlft : (deleteTodoCore s i).localFails = false := by rw [htsh]; exact hlf
  refine ⟨by unfold deleteMemory; rw [if_neg (by simp [hlf])],
    by unfold getAllMemories; rw [if_neg (by simp [hlfm])], ?_,
    by unfold deleteTodo; rw [if_neg (by simp [hlf])],
    by unfold getAllTodos; rw [if_neg (by simp [hlft])], ?_⟩
  · rcases h with ⟨hr, hg, hs, hwfm, _⟩ | hr
    · rw [deleteMemoryCore_spec s i hr hg hs]
      rw [getAllMemoriesCore_ready
        { s with localMems := delBy (fun m => m.id) s.localMems i,
                 remoteMems := some (delBy (fun p => p.1) (s.remoteMems.getD []) i) }
        (delBy (fun p => p.1) (s.remoteMems.getD []) i) hr hg rfl]
      split
      · intro m hm
        simp [clearMemsCore] at hm
      · intro m hm
        have hm' : m ∈ ((delBy (fun p => p.1) (s.remoteMems.getD []) i).map
            (fun p => p.2)).map (enhanceMem (delBy (fun x => x.id) s.localMems i)) := hm
        rcases List.mem_map.mp hm' with ⟨v, hv, rfl⟩
        rcases List.mem_map.mp hv with ⟨p, hp, rfl⟩
        rw [enhanceMem_id]
        rcases mem_delBy.mp hp with ⟨hpin, hpne⟩
        rw [← hwfm p hpin]
        exact hpne
    · rw [deleteMemoryCore_unready s i hr,
        getAllMemoriesCore_unready _ (by exact hr)]
      intro m hm
      exact (mem_delBy.mp hm).2
  · rcases h with ⟨hr, hg, hs, _, hwft⟩ | hr
    · rw [deleteTodoCore_spec s i hr hg hs]
      rw [getAllTodosCore_ready
        { s with localTodos := delBy (fun t => t.id) s.localTodos i,
                 remoteTodos := some (delBy (fun p => p.1) (s.remoteTodos.getD []) i) }
        (delBy (fun p => p.1) (s.remoteTodos.getD []) i) hr hg rfl]
      split
      · intro t htm
        simp [clearTodosCore] at htm
      · intro t htm
        have htm' : t ∈ (delBy (fun p => p.1) (s.remoteTodos.getD []) i).map
            (fun p => p.2) := htm
        rcases List.mem_map.mp htm' with ⟨p, hp, rfl⟩
        rcases mem_delBy.mp hp with ⟨hpin, hpne⟩
        rw [← hwft p hpin]
        exact hpne
    · rw [deleteTodoCore_unready s i hr,
        getAllTodosCore_unready _ (by exact hr)]
      intro t htm
      exact (mem_delBy.mp htm).2

/-- Witness for C7 at a concrete reachable state keyed by item ids. -/
theorem C7_delete_then_readall_witness :
    deleteMemory exStateReady "m1" = .ok (deleteMemoryCore exStateReady "m1") ∧
    ((getAllMemoriesCore (deleteMemoryCore exStateReady "m1")).2.all
      (fun m => m.id != "m1")) = true ∧
    deleteTodo exStateReady "t1" = .ok (deleteTodoCore exStateReady "t1") ∧
    ((getAllTodosCore (deleteTodoCore exStateReady "t1")).2.all
      (fun t => t.id != "t1")) = true := by
  have h1 := C7_delete_then_readall exStateReady "m1" rfl
    (Or.inl ⟨rfl, rfl, rfl, by decide, by decide⟩)
  have h2 := C7_delete_then_readall exStateReady "t1" rfl
    (Or.inl ⟨rfl, rfl, rfl, by decide, by decide⟩)
  refine ⟨h1.1, ?_, h2.2.2.2.1, ?_⟩
  · refine List.all_eq_true.mpr ?_
    intro m hm
    simpa using h1.2.2.1 m hm
  · refine List.all_eq_true.mpr ?_
    intro t htm
    simpa using h2.2.2.2.2.2 t htm

/-- C3 counterexample: the claim says that for every collection an
empty or null snapshot deletes all local items of that collection; at
this concrete state the todos listener receives a `null` snapshot,
invokes the callback with the empty list, and yet the local todos
collection still holds its item — nothing is deleted. -/
theorem C3_counterexample :
    (todosListener exStateC3 none).2 = [] ∧
    (todosListener exStateC3 none).1.localTodos = [exTodo] ∧
    ([exTodo] : List TodoItem) ≠ [] := by
  refine ⟨rfl, rfl, by simp⟩

/-- C3 (amended): when the live subscription receives an empty or null
snapshot, the memories listener deletes all local memories and invokes
its callback with an empty list, while the todos listener invokes its
callback with an empty list but leaves the local todos collection
unchanged. -/
theorem C3_empty_snapshot_amended (s : DBState)
    (dm : Option (RMap Memory)) (dt : Option (RMap TodoItem))
    (hlf : s.localFails = false)
    (hm : dm = none ∨ dm = some []) (ht : dt = none ∨ dt = some []) :
    memoriesListener s dm = .ok ((clearMemsCore s).1, []) ∧
    (clearMemsCore s).1.localMems = [] ∧
    (todosListener s dt).2 = [] ∧
    (todosListener s dt).1.localTodos = s.localTodos := by
  have hmem : memoriesListenerCore s dm = clearMemsCore s := by
    rcases hm with h | h <;> subst h <;> simp [memoriesListenerCore]
  refine ⟨?_, clearMemsCore_localMems s, ?_, ?_⟩
  · unfold memoriesListener
    rw [if_neg (by simp [hlf]), hmem]
    rfl
  · rcases ht with h | h <;> subst h <;> simp [todosListener, hlf, putAll]
  · rcases ht with h | h <;> subst h <;> simp [todosListener, hlf, putAll]

/-- Witness for the amended C3 at a concrete state with one local todo
and one local memory. -/
theorem C3_empty_snapshot_amended_witness :
    memoriesListener exStateReady none = .ok ((clearMemsCore exStateReady).1, []) ∧
    (clearMemsCore exStateReady).1.localMems = [] ∧
    (todosListener exStateReady (some [])).2 = [] ∧
    (todosListener exStateReady (some [])).1.localTodos = exStateReady.localTodos :=
  C3_empty_snapshot_amended exStateReady none (some []) rfl (Or.inl rfl) (Or.inr rfl)

/-- A throwing remote read is indistinguishable from an empty remote:
`getAllMemories` clears the local collection. -/
theorem getAllMemoriesCore_getThrows (s : DBState)
    (hr : s.ready = true) (hg : s.getThrows = true) :
    getAllMemoriesCore s = clearMemsCore s := by
  unfold getAllMemoriesCore fbGetMems
  simp [hr, hg]

/-- A throwing remote read clears the local todos as well. -/
theorem getAllTodosCore_getThrows (s : DBState)
    (hr : s.ready = true) (hg : s.getThrows = true) :
    getAllTodosCore s = clearTodosCore s := by
  unfold getAllTodosCore fbGetTodos
  simp [hr, hg]

/-- After the merge-and-prune of `getAllMemories`, every surviving
local item carries the id of some returned item. -/
theorem mergeMemsCore_local_ids (s : DBState) (fb : RMap Memory) :
    ∀ x ∈ (mergeMemsCore s fb).1.localMems,
      x.id ∈ (mergeMemsCore s fb).2.map (fun m => m.id) := by
  intro x hx
  have hids : (((fb.map (fun p => p.2)).map (enhanceMem s.localMems)).map (fun m => m.id))
      = (fb.map (fun p => p.2)).map (fun m => m.id) := by
    rw [List.map_map]
    exact List.map_congr_left (fun v _ => enhanceMem_id _ _)
  have hx' : x ∈ deleteKeys (fun m => m.id)
      (putAll (fun m => m.id) s.localMems
        ((fb.map (fun p => p.2)).map (enhanceMem s.localMems)))
      ((s.localMems.filter (fun m =>
        !(((fb.map (fun p => p.2)).map (fun m => m.id)).contains m.id))).map
        (fun m => m.id)) := hx
  have hsnd : (mergeMemsCore s fb).2 =
      (fb.map (fun p => p.2)).map (enhanceMem s.localMems) := rfl
  rw [hsnd, hids]
  rcases mem_deleteKeys.mp hx' with ⟨hput, hdel⟩
  by_cases hid : x.id ∈ (fb.map (fun p => p.2)).map (fun m => m.id)
  · exact hid
  · exfalso
    rcases mem_putAll_sub hput with he | ⟨hlocm, hke⟩
    · apply hid
      rw [← hids]
      exact List.mem_map.mpr ⟨x, he, rfl⟩
    · apply hdel
      refine List.mem_map.mpr ⟨x, List.mem_filter.mpr ⟨hlocm, ?_⟩, rfl⟩
      simpa using hid

/-- After the merge-and-prune of `getAllTodos`, every surviving local
item carries the id of some returned item. -/
theorem mergeTodosCore_local_ids (s : DBState) (fb : RMap TodoItem) :
    ∀ x ∈ (mergeTodosCore s fb).1.localTodos,
      x.id ∈ (mergeTodosCore s fb).2.map (fun t => t.id) := by
  intro x hx
  have hx' : x ∈ deleteKeys (fun t => t.id)
      (putAll (fun t => t.id) s.localTodos (fb.map (fun p => p.2)))
      (((putAll (fun t => t.id) s.localTodos (fb.map (fun p => p.2))).filter
        (fun t => !(((fb.map (fun p => p.2)).map (fun t => t.id)).contains t.id))).map
        (fun t => t.id)) := hx
  rcases mem_deleteKeys.mp hx' with ⟨hput, hdel⟩
  by_cases hid : x.id ∈ (fb.map (fun p => p.2)).map (fun t => t.id)
  · exact hid
  · exfalso
    apply hdel
    refine List.mem_map.mpr ⟨x, List.mem_filter.mpr ⟨hput, ?_⟩, rfl⟩
    simpa using hid

/-- `getAllMemories` post-conditions used by the import pipeline: every
surviving local item and (on a successful remote read) every remote
entry key occurs among the returned ids. -/
theorem getAllMemoriesCore_post (s : DBState)
    (hwf : ∀ p ∈ s.remoteMems.getD [], p.1 = p.2.id) :
    (∀ x ∈ (getAllMemoriesCore s).1.localMems,
        x.id ∈ (getAllMemoriesCore s).2.map (fun m => m.id)) ∧
    (s.ready = true → s.getThrows = false →
        ∀ p ∈ s.remoteMems.getD [], p.1 ∈ (getAllMemoriesCore s).2.map (fun m => m.id)) := by
  constructor
  · cases hr : s.ready with
    | false =>
        rw [getAllMemoriesCore_unready s hr]
        intro x hx
        exact List.mem_map.mpr ⟨x, hx, rfl⟩
    | true =>
        cases hg : s.getThrows with
        | true =>
            rw [getAllMemoriesCore_getThrows s hr hg]
            intro x hx
            rw [clearMemsCore_localMems] at hx
            cases hx
        | false =>
            cases hm : s.remoteMems with
            | none =>
                rw [getAllMemoriesCore_noneRemote s hr hg hm]
                intro x hx
                rw [clearMemsCore_localMems] at hx
                cases hx
            | some fb =>
                rw [getAllMemoriesCore_ready s fb hr hg hm]
                split
                · intro x hx
                  rw [clearMemsCore_localMems] at hx
                  cases hx
                · exact mergeMemsCore_local_ids s fb
  · intro hr hg p hp
    cases hm : s.remoteMems with
    | none =>
        rw [hm] at hp
        cases hp
    | some fb =>
        rw [hm] at hp
        rw [getAllMemoriesCore_ready s fb hr hg hm]
        have hne : fb.isEmpty = false := by
          cases fb with
          | nil => cases hp
          | cons a l => rfl
        rw [if_neg (by simp [hne])]
        have hids : (((fb.map (fun q => q.2)).map (enhanceMem s.localMems)).map
            (fun m => m.id)) = (fb.map (fun q => q.2)).map (fun m => m.id) := by
          rw [List.map_map]
          exact List.map_congr_left (fun v _ => enhanceMem_id _ _)
        have hsnd : (mergeMemsCore s fb).2 =
            (fb.map (fun q => q.2)).map (enhanceMem s.localMems) := rfl
        rw [hsnd, hids, hwf p (by rw [hm]; exact hp)]
        exact List.mem_map.mpr ⟨p.2, List.mem_map.mpr ⟨p, hp, rfl⟩, rfl⟩

/-- `getAllTodos` post-conditions used by the import pipeline. -/
theorem getAllTodosCore_post (s : DBState)
    (hwf : ∀ p ∈ s.remoteTodos.getD [], p.1 = p.2.id) :
    (∀ x ∈ (getAllTodosCore s).1.localTodos,
        x.id ∈ (getAllTodosCore s).2.map (fun t => t.id)) ∧
    (s.ready = true → s.getThrows = false →
        ∀ p ∈ s.remoteTodos.getD [], p.1 ∈ (getAllTodosCore s).2.map (fun t => t.id)) := by
  constructor
  · cases hr : s.ready with
    | false =>
        rw [getAllTodosCore_unready s hr]
        intro x hx
        exact List.mem_map.mpr ⟨x, hx, rfl⟩
    | true =>
        cases hg : s.getThrows with
        | true =>
            rw [getAllTodosCore_getThrows s hr hg]
            intro x hx
            rw [clearTodosCore_localTodos] at hx
            cases hx
        | false =>
            cases hm : s.remoteTodos with
            | none =>
                rw [getAllTodosCore_noneRemote s hr hg hm]
                intro x hx
                rw [clearTodosCore_localTodos] at hx
                cases hx
            | some fb =>
                rw [getAllTodosCore_ready s fb hr hg hm]
                split
                · intro x hx
                  rw [clearTodosCore_localTodos] at hx
                  cases hx
                · exact mergeTodosCore_local_ids s fb
  · intro hr hg p hp
    cases hm : s.remoteTodos with
    | none =>
        rw [hm] at hp
        cases hp
    | some fb =>
        rw [hm] at hp
        rw [getAllTodosCore_ready s fb hr hg hm]
        have hne : fb.isEmpty = false := by
          cases fb with
          | nil => cases hp
          | cons a l => rfl
        rw [if_neg (by simp [hne])]
        have hsnd : (mergeTodosCore s fb).2 = fb.map (fun q => q.2) := rfl
        rw [hsnd, hwf p (by rw [hm]; exact hp)]
        exact List.mem_map.mpr ⟨p.2, List.mem_map.mpr ⟨p, hp, rfl⟩, rfl⟩

/-- The avatar-restore step touches only the settings stores. -/
theorem restoreAvatar_pres (s : DBState) (o : Option String) (k : String) :
    (restoreAvatar s o k).localMems = s.localMems ∧
    (restoreAvatar s o k).localTodos = s.localTodos ∧
    (restoreAvatar s o k).remoteMems = s.remoteMems ∧
    (restoreAvatar s o k).remoteTodos = s.remoteTodos := by
  cases o with
  | none => exact ⟨rfl, rfl, rfl, rfl⟩
  | some a =>
      unfold restoreAvatar
      dsimp only
      split
      · obtain ⟨ls, rs, hsh⟩ := saveSettingCore_shape s k a
        rw [hsh]
        exact ⟨rfl, rfl, rfl, rfl⟩
      · exact ⟨rfl, rfl, rfl, rfl⟩

/-- Confirmed import on a reachable backend with succeeding remote
calls: both local collections and both remote mappings end up holding
exactly the imported items. -/
theorem importConfirmedCore_ready (s : DBState) (ms : List Memory) (ts : List TodoItem)
    (aj ac : Option String)
    (hr : s.ready = true) (hg : s.getThrows = false) (hs : s.saveThrows = false)
    (hwfm : ∀ p ∈ s.remoteMems.getD [], p.1 = p.2.id)
    (hwft : ∀ p ∈ s.remoteTodos.getD [], p.1 = p.2.id)
    (hndm : (ms.map (fun m => m.id)).Nodup)
    (hndt : (ts.map (fun t => t.id)).Nodup)
    (hurl : ∀ m ∈ ms, strStartsWith m.url "data:" = false) :
    (importConfirmedCore s ms ts aj ac).localMems = ms ∧
    (importConfirmedCore s ms ts aj ac).localTodos = ts ∧
    (importConfirmedCore s ms ts aj ac).remoteMems.getD [] = ms.map (fun m => (m.id, m)) ∧
    (importConfirmedCore s ms ts aj ac).remoteTodos.getD [] = ts.map (fun t => (t.id, t)) := by
  obtain ⟨lm1, hsh1⟩ := getAllMemoriesCore_shape s
  obtain ⟨lt2, hsh2⟩ := getAllTodosCore_shape (getAllMemoriesCore s).1
  have hr1 : (getAllMemoriesCore s).1.ready = true := by rw [hsh1]; exact hr
  have hg1 : (getAllMemoriesCore s).1.getThrows = false := by rw [hsh1]; exact hg
  have hwft1 : ∀ p ∈ (getAllMemoriesCore s).1.remoteTodos.getD [], p.1 = p.2.id := by
    rw [hsh1]; exact hwft
  have hpostM := getAllMemoriesCore_post s hwfm
  have hpostT := getAllTodosCore_post (getAllMemoriesCore s).1 hwft1
  have hlm1 : (getAllMemoriesCore s).1.localMems = lm1 := by rw [hsh1]
  have hlt2 : (getAllTodosCore (getAllMemoriesCore s).1).1.localTodos = lt2 := by rw [hsh2]
  have hA1 := hpostM.1
  rw [hlm1] at hA1
  have hA2 := hpostT.1
  rw [hlt2] at hA2
  have hB1 := hpostM.2 hr hg
  have hB2 := hpostT.2 hr1 hg1
  have hrt1 : (getAllMemoriesCore s).1.remoteTodos = s.remoteTodos := by rw [hsh1]
  rw [hrt1] at hB2
  have hS2 : (getAllTodosCore (getAllMemoriesCore s).1).1 =
      { s with localMems := lm1, localTodos := lt2 } := by
    rw [hsh2, hsh1]
  obtain ⟨rmD, hfoldD, hgdD⟩ := foldl_deleteMemoryCore ((getAllMemoriesCore s).2)
    { s with localMems := lm1, localTodos := lt2 } hr hg hs
  have hnil1 : deleteKeys (fun m => m.id)
      ({ s with localMems := lm1, localTodos := lt2 } : DBState).localMems
      (((getAllMemoriesCore s).2).map (fun m => m.id)) = [] :=
    deleteKeys_eq_nil hA1
  have hnil2 : deleteKeys (fun p : String × Memory => p.1)
      (({ s with localMems := lm1, localTodos := lt2 } : DBState).remoteMems.getD [])
      (((getAllMemoriesCore s).2).map (fun m => m.id)) = [] :=
    deleteKeys_eq_nil (fun p hp => hB1 p hp)
  have hS3 : ((getAllMemoriesCore s).2).foldl (fun st m => deleteMemoryCore st m.id)
      { s with localMems := lm1, localTodos := lt2 } =
      { s with localMems := [], localTodos := lt2, remoteMems := rmD } := by
    rw [hfoldD, hnil1]
  have hrmD : rmD.getD [] = [] := by rw [hgdD]; exact hnil2
  obtain ⟨rtD, hfoldT, hgdT⟩ :=
    foldl_deleteTodoCore ((getAllTodosCore (getAllMemoriesCore s).1).2)
      { s with localMems := [], localTodos := lt2, remoteMems := rmD } hr hg hs
  have hnil3 : deleteKeys (fun t => t.id)
      ({ s with localMems := [], localTodos := lt2, remoteMems := rmD } : DBState).localTodos
      (((getAllTodosCore (getAllMemoriesCore s).1).2).map (fun t => t.id)) = [] :=
    deleteKeys_eq_nil hA2
  have hnil4 : deleteKeys (fun p : String × TodoItem => p.1)
      (({ s with localMems := [], localTodos := lt2, remoteMems := rmD } : DBState).remoteTodos.getD [])
      (((getAllTodosCore (getAllMemoriesCore s).1).2).map (fun t => t.id)) = [] :=
    deleteKeys_eq_nil (fun p hp => hB2 p hp)
  have hS4 : ((getAllTodosCore (getAllMemoriesCore s).1).2).foldl
      (fun st t => deleteTodoCore st t.id)
      { s with localMems := [], localTodos := lt2, remoteMems := rmD } =
      { s with localMems := [], localTodos := [],
               remoteMems := rmD, remoteTodos := rtD } := by
    rw [hfoldT, hnil3]
  have hrtD : rtD.getD [] = [] := by rw [hgdT]; exact hnil4
  obtain ⟨rmS, hfoldS, hgdS⟩ := foldl_saveMemoryCore ms
    { s with localMems := [], localTodos := [],
             remoteMems := rmD, remoteTodos := rtD } hr hg hs hurl
  have hputm : putAll (fun m => m.id)
      ({ s with localMems := [], localTodos := [], remoteMems := rmD, remoteTodos := rtD } : DBState).localMems ms = ms := by
    rw [putAll_fresh (fun x _ y hy => absurd hy (List.not_mem_nil y)) hndm]
    simp
  have hndm' : ((ms.map (fun m => (m.id, m))).map (fun p => p.1)).Nodup := by
    rw [List.map_map]; exact hndm
  have hrmS : rmS.getD [] = ms.map (fun m => (m.id, m)) := by
    rw [hgdS]
    have h0 : ({ s with localMems := [], localTodos := [], remoteMems := rmD, remoteTodos := rtD } : DBState).remoteMems.getD [] = [] := hrmD
    rw [h0, putAll_fresh (fun x _ y hy => absurd hy (List.not_mem_nil y)) hndm']
    simp
  have hS5 : ms.foldl (fun st m => (saveMemoryCore st m).1)
      { s with localMems := [], localTodos := [],
               remoteMems := rmD, remoteTodos := rtD } =
      { s with localMems := ms, localTodos := [],
               remoteMems := rmS, remoteTodos := rtD } := by
    rw [hfoldS, hputm]
  obtain ⟨rtS, hfoldTS, hgdTS⟩ := foldl_saveTodoCore ts
    { s with localMems := ms, localTodos := [],
             remoteMems := rmS, remoteTodos := rtD } hr hg hs
  have hputt : putAll (fun t => t.id)
      ({ s with localMems := ms, localTodos := [], remoteMems := rmS, remoteTodos := rtD } : DBState).localTodos ts = ts := by
    rw [putAll_fresh (fun x _ y hy => absurd hy (List.not_mem_nil y)) hndt]
    simp
  have hndt' : ((ts.map (fun t => (t.id, t))).map (fun p => p.1)).Nodup := by
    rw [List.map_map]; exact hndt
  have hrtS : rtS.getD [] = ts.map (fun t => (t.id, t)) := by
    rw [hgdTS]
    have h0 : ({ s with localMems := ms, localTodos := [], remoteMems := rmS, remoteTodos := rtD } : DBState).remoteTodos.getD [] = [] := hrtD
    rw [h0, putAll_fresh (fun x _ y hy => absurd hy (List.not_mem_nil y)) hndt']
    simp
  have hS6 : ts.foldl (fun st t => (saveTodoCore st t).1)
      { s with localMems := ms, localTodos := [],
               remoteMems := rmS, remoteTodos := rtD } =
      { s with localMems := ms, localTodos := ts,
               remoteMems := rmS, remoteTodos := rtS } := by
    rw [hfoldTS, hputt]
  have hall0 : importConfirmedCore s ms ts aj ac =
      restoreAvatar (restoreAvatar (
        ts.foldl (fun st t => (saveTodoCore st t).1) (
          ms.foldl (fun st m => (saveMemoryCore st m).1) (
            ((getAllTodosCore (getAllMemoriesCore s).1).2).foldl
              (fun st t => deleteTodoCore st t.id) (
              ((getAllMemoriesCore s).2).foldl (fun st m => deleteMemoryCore st m.id)
                (getAllTodosCore (getAllMemoriesCore s).1).1))))
        aj "avatar_jerry") ac "avatar_claire" := rfl
  have hall : importConfirmedCore s ms ts aj ac =
      restoreAvatar (restoreAvatar
        { s with localMems := ms, localTodos := ts,
                 remoteMems := rmS, remoteTodos := rtS }
        aj "avatar_jerry") ac "avatar_claire" := by
    rw [hall0, hS2, hS3, hS4, hS5, hS6]
  refine ⟨?_, ?_, ?_, ?_⟩
  · rw [hall, (restoreAvatar_pres _ ac "avatar_claire").1,
      (restoreAvatar_pres _ aj "avatar_jerry").1]
  · rw [hall, (restoreAvatar_pres _ ac "avatar_claire").2.1,
      (restoreAvatar_pres _ aj "avatar_jerry").2.1]
  · rw [hall, (restoreAvatar_pres _ ac "avatar_claire").2.2.1,
      (restoreAvatar_pres _ aj "avatar_jerry").2.2.1]
    exact hrmS
  · rw [hall, (restoreAvatar_pres _ ac "avatar_claire").2.2.2,
      (restoreAvatar_pres _ aj "avatar_jerry").2.2.2]
    exact hrtS

/-- Confirmed import when the backend never became ready: the local
collections end up holding exactly the imported items and the remote
state is untouched. -/
theorem importConfirmedCore_unready (s : DBState) (ms : List Memory) (ts : List TodoItem)
    (aj ac : Option String)
    (hr : s.ready = false)
    (hndm : (ms.map (fun m => m.id)).Nodup)
    (hndt : (ts.map (fun t => t.id)).Nodup) :
    (importConfirmedCore s ms ts aj ac).localMems = ms ∧
    (importConfirmedCore s ms ts aj ac).localTodos = ts ∧
    (importConfirmedCore s ms ts aj ac).remoteMems = s.remoteMems ∧
    (importConfirmedCore s ms ts aj ac).remoteTodos = s.remoteTodos := by
  have h1 : (getAllMemoriesCore s).1 = s := by rw [getAllMemoriesCore_unready s hr]
  have h2 : (getAllMemoriesCore s).2 = s.localMems := by
    rw [getAllMemoriesCore_unready s hr]
  have h3 : (getAllTodosCore s).1 = s := by rw [getAllTodosCore_unready s hr]
  have h4 : (getAllTodosCore s).2 = s.localTodos := by rw [getAllTodosCore_unready s hr]
  have hnilm : deleteKeys (fun m => m.id) s.localMems
      (s.localMems.map (fun m => m.id)) = [] :=
    deleteKeys_eq_nil (fun x hx => List.mem_map.mpr ⟨x, hx, rfl⟩)
  have hS3 : s.localMems.foldl (fun st m => deleteMemoryCore st m.id) s =
      { s with localMems := [] } := by
    rw [foldl_deleteMemoryCore_unready s.localMems s hr, hnilm]
  have hnilt : deleteKeys (fun t => t.id)
      (({ s with localMems := [] } : DBState).localTodos)
      (s.localTodos.map (fun t => t.id)) = [] :=
    deleteKeys_eq_nil (fun x hx => List.mem_map.mpr ⟨x, hx, rfl⟩)
  have hS4 : s.localTodos.foldl (fun st t => deleteTodoCore st t.id)
      { s with localMems := [] } =
      { s with localMems := [], localTodos := [] } := by
    rw [foldl_deleteTodoCore_unready s.localTodos { s with localMems := [] } hr, hnilt]
  have hputm : putAll (fun m => m.id)
      (({ s with localMems := [], localTodos := [] } : DBState).localMems) ms = ms := by
    rw [putAll_fresh (fun x _ y hy => absurd hy (List.not_mem_nil y)) hndm]
    simp
  have hS5 : ms.foldl (fun st m => (saveMemoryCore st m).1)
      { s with localMems := [], localTodos := [] } =
      { s with localMems := ms, localTodos := [] } := by
    rw [foldl_saveMemoryCore_unready ms { s with localMems := [], localTodos := [] } hr,
      hputm]
  have hputt : putAll (fun t => t.id)
      (({ s with localMems := ms, localTodos := [] } : DBState).localTodos) ts = ts := by
    rw [putAll_fresh (fun x _ y hy => absurd hy (List.not_mem_nil y)) hndt]
    simp
  have hS6 : ts.foldl (fun st t => (saveTodoCore st t).1)
      { s with localMems := ms, localTodos := [] } =
      { s with localMems := ms, localTodos := ts } := by
    rw [foldl_saveTodoCore_unready ts { s with localMems := ms, localTodos := [] } hr,
      hputt]
  have hall0 : importConfirmedCore s ms ts aj ac =
      restoreAvatar (restoreAvatar (
        ts.foldl (fun st t => (saveTodoCore st t).1) (
          ms.foldl (fun st m => (saveMemoryCore st m).1) (
            ((getAllTodosCore (getAllMemoriesCore s).1).2).foldl
              (fun st t => deleteTodoCore st t.id) (
              ((getAllMemoriesCore s).2).foldl (fun st m => deleteMemoryCore st m.id)
                (getAllTodosCore (getAllMemoriesCore s).1).1))))
        aj "avatar_jerry") ac "avatar_claire" := rfl
  have hall : importConfirmedCore s ms ts aj ac =
      restoreAvatar (restoreAvatar
        { s with localMems := ms, localTodos := ts } aj "avatar_jerry") ac "avatar_claire" := by
    rw [hall0, h1, h2, h3, h4, hS3, hS4, hS5, hS6]
  refine ⟨?_, ?_, ?_, ?_⟩
  · rw [hall, (restoreAvatar_pres _ ac "avatar_claire").1,
      (restoreAvatar_pres _ aj "avatar_jerry").1]
  · rw [hall, (restoreAvatar_pres _ ac "avatar_claire").2.1,
      (restoreAvatar_pres _ aj "avatar_jerry").2.1]
  · rw [hall, (restoreAvatar_pres _ ac "avatar_claire").2.2.1,
      (restoreAvatar_pres _ aj "avatar_jerry").2.2.1]
  · rw [hall, (restoreAvatar_pres _ ac "avatar_claire").2.2.2,
      (restoreAvatar_pres _ aj "avatar_jerry").2.2.2]

/-- C9: Import accepts a backup document only if it has both a
memories and a todos field; any document missing either is rejected
with a user-facing error before any deletion or write occurs (the state
is unchanged); when accepted and confirmed, import first deletes every
current local and (if reachable) remote item in both collections and
then writes exactly the imported items (for the remote copy, provided
the imported memories are not inline-encoded, since inline media is
routed through blob storage). -/
theorem C9_import (s : DBState) (doc : BackupDoc) (confirmed : Bool) :
    ((doc.memories = none ∨ doc.todos = none) →
      handleImportData s doc confirmed = (s, .invalidFormat)) ∧
    (∀ ms ts, doc.memories = some ms → doc.todos = some ts →
      s.localFails = false →
      (ms.map (fun m => m.id)).Nodup → (ts.map (fun t => t.id)).Nodup →
      (handleImportData s doc true).2 = .success ∧
      ((s.ready = true → s.getThrows = false → s.saveThrows = false →
        (∀ p ∈ s.remoteMems.getD [], p.1 = p.2.id) →
        (∀ p ∈ s.remoteTodos.getD [], p.1 = p.2.id) →
        (∀ m ∈ ms, strStartsWith m.url "data:" = false) →
        (handleImportData s doc true).1.localMems = ms ∧
        (handleImportData s doc true).1.localTodos = ts ∧
        (handleImportData s doc true).1.remoteMems.getD [] =
          ms.map (fun m => (m.id, m)) ∧
        (handleImportData s doc true).1.remoteTodos.getD [] =
          ts.map (fun t => (t.id, t))) ∧
       (s.ready = false →
        (handleImportData s doc true).1.localMems = ms ∧
        (handleImportData s doc true).1.localTodos = ts ∧
        (handleImportData s doc true).1.remoteMems = s.remoteMems ∧
        (handleImportData s doc true).1.remoteTodos = s.remoteTodos))) := by
  constructor
  · intro hd
    unfold handleImportData
    rcases hd with h | h
    · rw [h]
    · rw [h]
      cases doc.memories <;> rfl
  · intro ms ts hms hts hlf hndm hndt
    have hrun : handleImportData s doc true =
        (importConfirmedCore s ms ts doc.avatarJerry doc.avatarClaire, .success) := by
      unfold handleImportData
      rw [hms, hts]
      simp [hlf]
    refine ⟨by rw [hrun], ?_, ?_⟩
    · intro hr hg hs hwfm hwft hurl
      have h := importConfirmedCore_ready s ms ts doc.avatarJerry doc.avatarClaire
        hr hg hs hwfm hwft hndm hndt hurl
      rw [hrun]
      exact h
    · intro hr
      have h := importConfirmedCore_unready s ms ts doc.avatarJerry doc.avatarClaire
        hr hndm hndt
      rw [hrun]
      exact h

/-- Witness for C9: a backup missing its todos array is rejected with
the state unchanged; a valid backup with one memory and two todos,
confirmed, replaces both collections exactly — locally and remotely
when reachable, locally only when not. -/
theorem C9_import_witness :
    handleImportData exStateReady exBackupNoTodos true = (exStateReady, .invalidFormat) ∧
    (handleImportData exStateReady exBackup true).2 = .success ∧
    (handleImportData exStateReady exBackup true).1.localMems = [exMemPlain] ∧
    (handleImportData exStateReady exBackup true).1.localTodos = [exTodo, exTodo2] ∧
    (handleImportData exStateReady exBackup true).1.remoteMems.getD [] =
      [exMemPlain].map (fun m => (m.id, m)) ∧
    (handleImportData exStateReady exBackup true).1.remoteTodos.getD [] =
      [exTodo, exTodo2].map (fun t => (t.id, t)) ∧
    (handleImportData exStateUnready exBackup true).1.localMems = [exMemPlain] ∧
    (handleImportData exStateUnready exBackup true).1.remoteMems =
      exStateUnready.remoteMems := by
  have ha := (C9_import exStateReady exBackupNoTodos true).1 (Or.inr rfl)
  have hb := (C9_import exStateReady exBackup true).2 [exMemPlain] [exTodo, exTodo2]
    rfl rfl rfl (by decide) (by decide)
  have hc := (C9_import exStateUnready exBackup true).2 [exMemPlain] [exTodo, exTodo2]
    rfl rfl rfl (by decide) (by decide)
  have hb2 := hb.2.1 rfl rfl rfl (by decide) (by decide) (by decide)
  have hc2 := hc.2.2 rfl
  exact ⟨ha, hb.1, hb2.1, hb2.2.1, hb2.2.2.1, hb2.2.2.2, hc2.1, hc2.2.2.1⟩

end LoveStory
